import Mathlib

/-!
Verification development for the invoke-ai/launcher orchestration core.

The definitions below are a shallow embedding, translated from the
TypeScript sources, of:

* the status unions used by the install workflow and the application
  process supervisor (`src/shared/types` via their uses in
  `src/main/install-manager.ts` and `src/main/invoke-manager.ts`);
* the GPU-type → torch-platform selection (`src/main/util.ts`,
  `getTorchPlatform`) and the xformers package-specifier selection
  (`src/main/install-manager.ts`, `startInstall`);
* the install workflow `InstallManager.startInstall` / `cancelInstall`
  (`src/main/install-manager.ts`), modelled as a trace-producing function
  over an environment that fixes the results of the filesystem probes,
  the pin fetch and the child processes, and fixes the event-loop point
  at which a concurrent `cancelInstall` IPC call is delivered;
* the application supervisor `InvokeManager.startInvoke` and its window
  and exit handling (`src/main/invoke-manager.ts`), modelled as a step
  function over external events (output chunks, process exit, window
  crash, exit request, reopen request);
* the single-command runner `CommandRunner` (`lib/command-runner`,
  the variant with an awaited kill), modelled as a trace of its
  spawn/kill/settle actions;
* the marker-protocol `PtyManager` (`runCommand`,
  `checkForCommandCompletion`, `dispose`, `onExit`, `teardown`);
* the session-indexed `PtyManager` of `src/lib/pty.ts`
  (`write`, `resize`, `dispose` built on the `do` lookup helper).

Machine integers do not occur on the paths of interest; process exit
codes are modelled as `Int` (JavaScript numbers used as exact small
integers), strings as Lean `String`.
-/

/-! ## Status unions (from `src/shared/types` as used by the managers) -/

/-- `InstallProcessStatus` type tags: `uninitialized`, `starting`,
`installing`, `canceling`, `canceled`, `completed`, `error`.  The
`error` payload (message/context) does not affect any transition, so the
tag enum is used for the install machine. -/
inductive InstallStatus where
  | uninitialized
  | starting
  | installing
  | canceling
  | canceled
  | completed
  | error
  deriving DecidableEq, Repr

/-- The data recorded when the application reaches `running`
(`invoke-manager.ts`, the `urlWatcher` callback): the matched URL, the
loopback URL, and optionally a LAN URL. -/
structure RunningData where
  url : String
  loopbackUrl : String
  lanUrl : Option String
  deriving DecidableEq, Repr

/-- `InvokeProcessStatus`: the application supervisor's status union,
with the payloads the code attaches (`running` and `window-crashed`
carry the running data, `error` carries a message). -/
inductive InvokeStatus where
  | uninitialized
  | starting
  | running (data : RunningData)
  | exiting
  | exited
  | windowCrashed (data : RunningData) (crashReason : String)
  | error (message : String)
  deriving DecidableEq, Repr

/-! ## String utilities (JavaScript semantics)

`String.prototype.includes`, `String.prototype.replace` with a string
pattern (replaces the first occurrence only), and the two regular
expressions the orchestration core applies to output chunks, all
implemented over `List Char`. -/

/-- Whether `needle` occurs as a contiguous substring of `hay`
(JavaScript `hay.includes(needle)`). -/
def substrOccurs (needle : List Char) : List Char → Bool
  | [] => needle.isEmpty
  | c :: rest => needle.isPrefixOf (c :: rest) || substrOccurs needle rest

/-- JavaScript `hay.includes(needle)` on `String`. -/
def jsIncludes (hay needle : String) : Bool :=
  substrOccurs needle.data hay.data

/-- JavaScript `hay.replace(needle, repl)` with a string pattern:
replaces the first occurrence of `needle` only; if `needle` does not
occur, the string is unchanged (the replacement strings used by the code
contain no `$`-patterns). -/
def replaceFirstL (needle repl : List Char) : List Char → List Char
  | [] => if needle.isEmpty then repl else []
  | c :: rest =>
    if needle.isPrefixOf (c :: rest) then repl ++ (c :: rest).drop needle.length
    else c :: replaceFirstL needle repl rest

/-- `replaceFirstL` on `String`. -/
def jsReplace (hay needle repl : String) : String :=
  ⟨replaceFirstL needle.data repl.data hay.data⟩

/-- The whitespace class of the JavaScript regex `\s`, restricted to the
ASCII whitespace characters that can occur in process output. -/
def isJsSpace (c : Char) : Bool :=
  c = ' ' || c = '\t' || c = '\n' || c = '\r' || c = '\x0b' || c = '\x0c'

/-- A character admissible in the host part of the URL regex
`[^:\s]`. -/
def isHostChar (c : Char) : Bool :=
  c ≠ ':' && !isJsSpace c

/-- Attempt to match the regex `https?:\/\/[^:\s]+:\d+` anchored at the
head of `l`, returning the matched characters.  Because `[^:\s]+` cannot
contain `:`, the greedy host run extends exactly to the first `:` (no
backtracking is possible), after which `:\d+` must follow. -/
def matchUrlAt (l : List Char) : Option (List Char) :=
  let try1 (scheme : List Char) : Option (List Char) :=
    if scheme.isPrefixOf l then
      let rest := l.drop scheme.length
      let host := rest.takeWhile isHostChar
      let rest2 := rest.drop host.length
      if host.isEmpty then none
      else
        match rest2 with
        | ':' :: afterColon =>
          let digits := afterColon.takeWhile Char.isDigit
          if digits.isEmpty then none
          else some (scheme ++ host ++ ':' :: digits)
        | _ => none
    else none
  match try1 "https://".data with
  | some m => some m
  | none => try1 "http://".data

/-- Leftmost match of `https?:\/\/[^:\s]+:\d+` in `l` (JavaScript
`String.prototype.match` with a non-global regex returns the leftmost
match). -/
def findUrlL : List Char → Option (List Char)
  | [] => none
  | c :: rest =>
    match matchUrlAt (c :: rest) with
    | some m => some m
    | none => findUrlL rest

/-- Leftmost URL match on `String`. -/
def findUrl (s : String) : Option String :=
  (findUrlL s.data).map (fun l => ⟨l⟩)

/-- Parse a nonempty all-digit character list as a `Nat`. -/
def digitsToNat (l : List Char) : Nat :=
  l.foldl (fun acc c => acc * 10 + (c.toNat - '0'.toNat)) 0

/-- Attempt to match `<marker>:(\d+)` anchored at the head of `l`
(`checkForCommandCompletion` builds the regex from the literal marker
characters).  Returns the parsed captured exit code. -/
def matchMarkerAt (marker : List Char) (l : List Char) : Option Nat :=
  if marker.isPrefixOf l then
    match l.drop marker.length with
    | ':' :: afterColon =>
      let digits := afterColon.takeWhile Char.isDigit
      if digits.isEmpty then none else some (digitsToNat digits)
    | _ => none
  else none

/-- Leftmost match of `<marker>:(\d+)` in `l`, returning the parsed exit
code (`data.match(pattern)` followed by `parseInt(match[1], 10)`). -/
def findMarkerCodeL (marker : List Char) : List Char → Option Nat
  | [] => none
  | c :: rest =>
    match matchMarkerAt marker (c :: rest) with
    | some n => some n
    | none => findMarkerCodeL marker rest

/-- Marker scan on `String`. -/
def findMarkerCode (marker data : String) : Option Nat :=
  findMarkerCodeL marker.data data.data

/-! ## Version components (`@renovatebot/pep440` `major`/`minor`)

`startInstall` compares `major(installed) === major(pin)` and
`minor(installed) === minor(pin)`.  For the plain numeric release
strings these functions are applied to, `major`/`minor` are the first
and second dot-separated release components; an unparsable component is
`none` (JavaScript `null`, and `null === null` holds, which `Option`
equality mirrors). -/

/-- Split a character list on `.` (like `String.splitOn "."`; an empty
input yields one empty component). -/
def splitOnDot : List Char → List (List Char)
  | [] => [[]]
  | c :: rest =>
    let r := splitOnDot rest
    if c = '.' then [] :: r
    else
      match r with
      | [] => [[c]]
      | h :: t => (c :: h) :: t

/-- Parse a component that consists solely of one or more digits. -/
def parseAllDigits (l : List Char) : Option Nat :=
  if l ≠ [] && l.all Char.isDigit then some (digitsToNat l) else none

/-- The `i`-th dot-separated numeric component of a version string. -/
def versionComponent (s : String) (i : Nat) : Option Nat :=
  match (splitOnDot s.data).get? i with
  | some comp => parseAllDigits comp
  | none => none

/-- `major` of `@renovatebot/pep440` on plain release strings. -/
def pep440major (s : String) : Option Nat := versionComponent s 0

/-- `minor` of `@renovatebot/pep440` on plain release strings. -/
def pep440minor (s : String) : Option Nat := versionComponent s 1

/-! ## GPU-type → torch-platform selection (`src/main/util.ts`) -/

/-- `process.platform` restricted to the platforms the launcher
supports. -/
inductive Platform where
  | win32
  | linux
  | darwin
  deriving DecidableEq, Repr

/-- Modelled from the spec: the declaration of `GpuType` (in
`src/shared/types`) is not among the sources; the four literal values
`'amd'`, `'nvidia<30xx'`, `'nvidia>=30xx'`, `'nogpu'` appear in
`getTorchPlatform`, whose `default` branch covers any other value of the
type ("unspecified-default → accelerated index"); `unspecified`
represents such a value. -/
inductive GpuType where
  | amd
  | nvidiaLt30xx
  | nvidiaGe30xx
  | nogpu
  | unspecified
  deriving DecidableEq, Repr

/-- The torch platform, which selects the pypi index. -/
inductive TorchPlatform where
  | cuda
  | rocm
  | cpu
  deriving DecidableEq, Repr

/-- `getTorchPlatform` (`src/main/util.ts`): on macOS always `cpu`;
otherwise by GPU type, defaulting to `cuda`. -/
def getTorchPlatform (platform : Platform) (gpuType : GpuType) : TorchPlatform :=
  if platform = .darwin then
    .cpu
  else
    match gpuType with
    | .amd => .rocm
    | .nvidiaLt30xx => .cuda
    | .nvidiaGe30xx => .cuda
    | .nogpu => .cpu
    | .unspecified => .cuda

/-- The package specifier chosen by `startInstall`
(`src/main/install-manager.ts`): xformers only on pre-30xx Nvidia
GPUs. -/
def invokeaiPackageSpecifier (gpuType : GpuType) : String :=
  if gpuType = .nvidiaLt30xx then "invokeai[xformers]" else "invokeai"

/-! ## Install workflow (`src/main/install-manager.ts`)

`InstallManager.startInstall` is a straight-line async function whose
only interleaving points are its `await`s.  A concurrent
`cancelInstall` IPC call can only run while `startInstall` is suspended
at one of those awaits, so the model numbers the awaits in program
order and lets the environment say at which await (if any) the
cancellation call is delivered.  Awaits that a given run skips simply
never deliver; every real interleaving corresponds to delivery at some
await the run actually reaches.

Await numbering in `startInstall` (the PTY/`CommandRunner` version):
0 location check, 1 `getPins`, 2 `getInstallationDetails`, 3 uv
executable check, 4 python install command, 5 `isDirectory(venvPath)`,
6 `fs.rm` of the venv, 7 venv creation command, 8 package install
command. -/

/-- Which of the three child-process steps a spawn belongs to. -/
inductive StepKind where
  | python
  | venv
  | installPkg
  deriving DecidableEq, Repr

/-- Observable events of the install workflow model: status updates
(`updateStatus`), child-process spawns (`CommandRunner.runCommand`
creating a PTY process), kills (`CommandRunner.kill`), the warning
logged by a rejected `cancelInstall`, and the `assert` throw on an
unsupported platform/architecture (which rejects the async function
without recording a status). -/
inductive InstallEv where
  | status (s : InstallStatus)
  | spawn (k : StepKind)
  | kill
  | warnNoInstallToCancel
  | assertFailed
  deriving DecidableEq, Repr

/-- The result of the pin fetch (`getPins`): the pinned python version
and the torch index URL already selected for the host platform and
torch platform. -/
structure InstallPins where
  python : String
  torchIndexUrl : Option String
  deriving DecidableEq, Repr

/-- The part of `getInstallationDetails` that `startInstall` reads. -/
structure InstallDetails where
  isInstalled : Bool
  version : String
  pythonVersion : String
  deriving DecidableEq, Repr

/-- Environment of one `startInstall` run: the results of the
filesystem probes and the pin fetch, the repair flag, the exit codes of
the child processes (used only if the corresponding step spawns), and
the await at which a concurrent `cancelInstall` is delivered (`none`
for no cancellation). -/
structure InstallEnv where
  locationOk : Bool
  archOk : Bool
  pins : Option InstallPins
  details : InstallDetails
  repair : Bool
  uvOk : Bool
  hasVenv : Bool
  exitPython : Int
  exitVenv : Int
  exitInstall : Int
  cancelAt : Option Nat
  deriving Repr

/-- The mutable fields of `InstallManager` that the claims concern. -/
structure IState where
  status : InstallStatus
  cancelRequested : Bool
  runnerActive : Bool
  deriving DecidableEq, Repr

/-- `InstallManager.cancelInstall`: if no install is in progress
(status neither `installing` nor `starting`) it only logs a warning;
otherwise it sets the cancellation flag, records status `canceling`,
and kills the current command if one is running. -/
def cancelInstallM (s : IState) : IState × List InstallEv :=
  if s.status = .installing || s.status = .starting then
    ({ status := .canceling, cancelRequested := true, runnerActive := false },
      .status .canceling :: (if s.runnerActive then [.kill] else []))
  else
    (s, [.warnNoInstallToCancel])

/-- Delivery of the concurrent `cancelInstall` at await number `n`, if
the environment schedules it there. -/
def awaitPoint (env : InstallEnv) (n : Nat) (s : IState) : IState × List InstallEv :=
  if env.cancelAt = some n then cancelInstallM s else (s, [])

/-- Result of the private `InstallManager.runCommand` wrapper:
`'success'`, `'canceled'`, or a thrown `Process exited with code …`
error; `skipped` records that the step's guard was false and the
wrapper was never called. -/
inductive RunRes where
  | success
  | canceled
  | errorExit
  | skipped
  deriving DecidableEq, Repr

/-- `InstallManager.runCommand` (`src/main/install-manager.ts`): returns
`'canceled'` without spawning when the cancellation flag is already set;
otherwise spawns the command's PTY process, awaits it (await number
`n`, where a concurrent `cancelInstall` may be delivered), re-checks the
flag once the command settles, and otherwise maps exit code 0 to
`'success'` and anything else to a thrown error. -/
def runCommandM (env : InstallEnv) (k : StepKind) (exitCode : Int) (n : Nat) (s : IState) :
    RunRes × IState × List InstallEv :=
  if s.cancelRequested then
    (.canceled, s, [])
  else
    let s1 : IState := { s with runnerActive := true }
    let (s2, cancelEvs) := awaitPoint env n s1
    let s3 : IState := { s2 with runnerActive := false }
    if s3.cancelRequested then (.canceled, s3, .spawn k :: cancelEvs)
    else if exitCode = 0 then (.success, s3, .spawn k :: cancelEvs)
    else (.errorExit, s3, .spawn k :: cancelEvs)

/-- The `pythonVersionMismatch` boolean computed by `startInstall`:
false exactly when an existing installation's interpreter matches the
pin on both major and minor version. -/
def pythonVersionMismatch (details : InstallDetails) (pinPython : String) : Bool :=
  if details.isInstalled then
    !(pep440major details.pythonVersion == pep440major pinPython
        && pep440minor details.pythonVersion == pep440minor pinPython)
  else true

/-- The guard of the python-install step (and of the venv deletion):
`repair || pythonVersionMismatch`.  On every path that reaches the
guard, `env.pins` is `some`. -/
def needPythonInstall (env : InstallEnv) : Bool :=
  env.repair ||
    (match env.pins with
      | some pins => pythonVersionMismatch env.details pins.python
      | none => true)

/-- Continuation marker for the sequential phases of `startInstall`:
either the async function has returned (`done`) or control falls
through to the next section of the function (`cont`). -/
inductive IFlow where
  | done (s : IState) (evs : List InstallEv)
  | cont (s : IState) (evs : List InstallEv)
  deriving Repr

/-- Sequencing of a phase with the rest of the function. -/
def IFlow.seq (f : IFlow) (k : IState → IState × List InstallEv) : IState × List InstallEv :=
  match f with
  | .done s evs => (s, evs)
  | .cont s evs =>
    let (s2, evs2) := k s
    (s2, evs ++ evs2)

/-- `startInstall`, first section: reset the cancellation flag, record
`starting`, await the location check (await 0), fail on a bad location,
throw on an unsupported platform/arch, await `getPins` (await 1), fail
if the pins cannot be resolved, await `getInstallationDetails`
(await 2). -/
def startingPhase (env : InstallEnv) (s0 : IState) : IFlow :=
  let s := { s0 with cancelRequested := false, status := InstallStatus.starting }
  let evs : List InstallEv := [.status .starting]
  let (s, e) := awaitPoint env 0 s
  let evs := evs ++ e
  if !env.locationOk then .done { s with status := .error } (evs ++ [.status .error])
  else if !env.archOk then .done s (evs ++ [.assertFailed])
  else
    let (s, e) := awaitPoint env 1 s
    let evs := evs ++ e
    match env.pins with
    | none => .done { s with status := .error } (evs ++ [.status .error])
    | some _ =>
      let (s, e) := awaitPoint env 2 s
      .cont s (evs ++ e)

/-- `startInstall`, second section: await the uv executable check
(await 3), fail if uv is missing, record `installing`, and kill any
previous command still registered with the runner. -/
def uvPhase (env : InstallEnv) (s : IState) : IFlow :=
  let (s, e) := awaitPoint env 3 s
  if !env.uvOk then .done { s with status := .error } (e ++ [.status .error])
  else
    let s := { s with status := InstallStatus.installing }
    let evs := e ++ [InstallEv.status .installing]
    if s.runnerActive then .cont { s with runnerActive := false } (evs ++ [.kill])
    else .cont s evs

/-- `startInstall`, python step: run the python install command when
repairing or on a version mismatch, then map its result, and finally
perform the explicit cancellation check before venv creation. -/
def pythonPhase (env : InstallEnv) (s : IState) : IFlow :=
  let r :=
    if needPythonInstall env then runCommandM env .python env.exitPython 4 s
    else (RunRes.skipped, s, [])
  let res := r.1
  let s := r.2.1
  let evs := r.2.2
  if res = .errorExit then .done { s with status := .error } (evs ++ [.status .error])
  else if res = .canceled then .done { s with status := .canceled } (evs ++ [.status .canceled])
  else if s.cancelRequested then .done { s with status := .canceled } (evs ++ [.status .canceled])
  else .cont s evs

/-- `startInstall`, venv step: await `isDirectory(venvPath)` (await 5),
in repair/mismatch mode await the deletion of an existing venv
(await 6), create the venv if none exists (await 7), map the result,
and perform the explicit cancellation check before package
installation. -/
def venvPhase (env : InstallEnv) (s : IState) : IFlow :=
  let (s, e0) := awaitPoint env 5 s
  let hasVenv := env.hasVenv
  let r1 :=
    if needPythonInstall env && hasVenv then
      let (s, e) := awaitPoint env 6 s
      (s, false, e)
    else (s, hasVenv, ([] : List InstallEv))
  let s := r1.1
  let hasVenv := r1.2.1
  let e1 := r1.2.2
  let r2 :=
    if !hasVenv then runCommandM env .venv env.exitVenv 7 s
    else (RunRes.skipped, s, [])
  let res := r2.1
  let s := r2.2.1
  let e2 := r2.2.2
  let evs := e0 ++ e1 ++ e2
  if res = .errorExit then .done { s with status := .error } (evs ++ [.status .error])
  else if res = .canceled then .done { s with status := .canceled } (evs ++ [.status .canceled])
  else if s.cancelRequested then .done { s with status := .canceled } (evs ++ [.status .canceled])
  else .cont s evs

/-- `startInstall`, final step: run the package install command
(await 8), map its result, and on success write the first-run marker
(no status effect) and record `completed`. -/
def installPkgPhase (env : InstallEnv) (s : IState) : IState × List InstallEv :=
  let r := runCommandM env .installPkg env.exitInstall 8 s
  let res := r.1
  let s := r.2.1
  let evs := r.2.2
  if res = .errorExit then ({ s with status := .error }, evs ++ [.status .error])
  else if res = .canceled then ({ s with status := .canceled }, evs ++ [.status .canceled])
  else ({ s with status := .completed }, evs ++ [.status .completed])

/-- `InstallManager.startInstall` (the PTY/`CommandRunner` version),
from resetting the cancellation flag and recording `starting` through
to the terminal status, as the sequence of its phases.  Returns the
final manager state and the event trace. -/
def startInstallTrace (env : InstallEnv) (s0 : IState) : IState × List InstallEv :=
  IFlow.seq (startingPhase env s0) fun s =>
    IFlow.seq (uvPhase env s) fun s =>
      IFlow.seq (pythonPhase env s) fun s =>
        IFlow.seq (venvPhase env s) fun s =>
          installPkgPhase env s

/-! ## Trace checkers for the install workflow

`statusTraceOk R cur evs` checks that every `updateStatus` event in
`evs` is an `R`-transition from the previously recorded status;
`lastStatusD` tracks the final recorded status; the remaining checkers
support the cancellation claims. -/


/-! checkers -/

def statusTraceOk (R : InstallStatus → InstallStatus → Bool) :
    InstallStatus → List InstallEv → Bool
  | _, [] => true
  | cur, .status nxt :: rest => R cur nxt && statusTraceOk R nxt rest
  | cur, _ :: rest => statusTraceOk R cur rest

def lastStatusD : InstallStatus → List InstallEv → InstallStatus
  | cur, [] => cur
  | _, .status s :: rest => lastStatusD s rest
  | cur, _ :: rest => lastStatusD cur rest

def installDeclared : InstallStatus → InstallStatus → Bool
  | .uninitialized, .starting => true
  | .starting, .installing => true
  | .installing, .canceling => true
  | .canceling, .canceled => true
  | .installing, .completed => true
  | .installing, .error => true
  | _, _ => false

def installActual : InstallStatus → InstallStatus → Bool
  | .starting, .error => true
  | .starting, .canceling => true
  | .canceling, .installing => true
  | .canceling, .error => true
  | .installing, .canceled => true
  | s, t => installDeclared s t

def hasCancelingStatus : List InstallEv → Bool
  | [] => false
  | .status .canceling :: _ => true
  | _ :: rest => hasCancelingStatus rest

def noSpawnAfterCancelFrom : Bool → List InstallEv → Bool
  | _, [] => true
  | _, .status .canceling :: rest => noSpawnAfterCancelFrom true rest
  | seen, .spawn _ :: rest => !seen && noSpawnAfterCancelFrom seen rest
  | seen, _ :: rest => noSpawnAfterCancelFrom seen rest

def initIState : IState :=
  { status := .uninitialized, cancelRequested := false, runnerActive := false }

/-- Status/flag relation holding between the workflow's suspension
points: the cancellation flag is set exactly when the recorded status is
`canceling`; otherwise the status is the surrounding code's base
status. -/
def flagOk (base : InstallStatus) (s : IState) : Prop :=
  (s.cancelRequested = false ∧ s.status = base) ∨
    (s.cancelRequested = true ∧ (s.status = .canceling ∨ s.status = base))

/-- Invariant between phases: runner idle plus `flagOk`. -/
def midOk (base : InstallStatus) (s : IState) : Prop :=
  s.runnerActive = false ∧ flagOk base s

/-- Postcondition of a phase of `startInstall`: the emitted events pass
the transition checker from the entry status, a spawn never follows the
`canceling` status (`seen` records whether the cancellation flag was
set on entry), and only the listed step kinds are spawned; when control
falls through, the final status is tracked and the `midOk` invariant is
re-established. -/
def IFlow.post (entry : InstallStatus) (seen : Bool) (base : InstallStatus)
    (allowed : List StepKind) : IFlow → Prop
  | .done _ evs =>
      statusTraceOk installActual entry evs = true ∧
      noSpawnAfterCancelFrom seen evs = true ∧
      (∀ k, InstallEv.spawn k ∈ evs → k ∈ allowed)
  | .cont s' evs =>
      statusTraceOk installActual entry evs = true ∧
      lastStatusD entry evs = s'.status ∧
      midOk base s' ∧
      noSpawnAfterCancelFrom seen evs = true ∧
      (seen || hasCancelingStatus evs) = s'.cancelRequested ∧
      (∀ k, InstallEv.spawn k ∈ evs → k ∈ allowed)

/-! ## Application Process Supervisor (`src/main/invoke-manager.ts`)

`InvokeManager.startInvoke` spawns the application through the PTY
layer, watches its output for the readiness URL, opens/closes the
display window, and classifies process exits.  The model is a step
function over the external events the supervisor reacts to: output
chunks, the process exit notification, a renderer-process crash, the
user's exit request, and the reopen-window request. -/

/-- The readiness filter of the `urlWatcher`
(`data.includes('Uvicorn running') || data.includes('Invoke running')`). -/
def watcherFilter (data : String) : Bool :=
  jsIncludes data "Uvicorn running" || jsIncludes data "Invoke running"

/-- One `checkForMatch` probe: the cheap filter first, then the URL
regex. -/
def watcherMatch (data : String) : Option String :=
  if watcherFilter data then findUrl data else none

/-- The running data built by the `urlWatcher` callback: the matched
URL, the loopback URL (`url.replace('0.0.0.0', '127.0.0.1')`), and the
LAN URL (host address substituted) exactly when the URL contains
`0.0.0.0`. -/
def mkRunningData (url ipAddr : String) : RunningData :=
  { url := url
    loopbackUrl := jsReplace url "0.0.0.0" "127.0.0.1"
    lanUrl :=
      if jsIncludes url "0.0.0.0" then some (jsReplace url "0.0.0.0" ipAddr) else none }

/-- Exit classification of the `onExit` handler in `startInvoke`:
exit code 0 ⇒ `exited`; a present signal ⇒ `exited`; a non-null
non-zero code ⇒ `error` carrying the code; a null code with no signal ⇒
`error` (killed unexpectedly). -/
def classifyExit (exitCode : Option Int) (signal : Option Int) : InvokeStatus :=
  if exitCode = some 0 then .exited
  else if signal.isSome then .exited
  else
    match exitCode with
    | some c => .error ("Process exited with code " ++ toString c)
    | none => .error "Process was killed unexpectedly"

/-- The crash-reason message of the `render-process-gone` handler. -/
def crashReasonMessage (reason : String) : String :=
  if reason = "oom" then "Out of Memory (OOM)"
  else if reason = "crashed" then "Crashed"
  else if reason = "killed" then "Killed"
  else "Unknown (" ++ reason ++ ")"

/-- The mutable fields of `InvokeManager` that the claims concern.
`ptyAlive` says the spawned process has not yet delivered its exit
notification; `currentPty` models `currentPtyId !== null`;
`matched` is the one-shot latch of the `urlWatcher`. -/
structure VState where
  status : InvokeStatus
  matched : Bool
  lastRunningData : Option RunningData
  ptyAlive : Bool
  currentPty : Bool
  windowOpen : Bool
  deriving Repr

/-- Observable events of the supervisor model. -/
inductive InvokeEv where
  | status (s : InvokeStatus)
  | windowOpened
  | windowClosed
  | procKill
  deriving DecidableEq, Repr

/-- External events delivered to the supervisor. -/
inductive VEvent where
  | chunk (data : String)
  | procExit (exitCode : Option Int) (signal : Option Int)
  | windowCrash (reason : String)
  | exitInvoke
  | reopenWindow
  deriving Repr

/-- `startInvoke` up to (and including) spawning the process: record
`starting`; on an unusable installation record `error` and stop;
otherwise spawn the PTY process. -/
def startInvokeInit (isInstalled : Bool) : VState × List InvokeEv :=
  let s0 : VState :=
    { status := .starting, matched := false, lastRunningData := none,
      ptyAlive := false, currentPty := false, windowOpen := false }
  if !isInstalled then
    ({ s0 with status := .error "Invalid installation!" },
      [.status .starting, .status (.error "Invalid installation!")])
  else
    ({ s0 with ptyAlive := true, currentPty := true }, [.status .starting])

/-- One supervisor reaction (the `onData` URL watcher, the `onExit`
classifier, the `render-process-gone` handler, `exitInvoke`, and
`reopenWindow`), translated handler by handler. -/
def vstep (serverMode : Bool) (ipAddr : String) (s : VState) : VEvent → VState × List InvokeEv
  | .chunk data =>
    if s.ptyAlive then
      if !s.matched then
        match watcherMatch data with
        | some url =>
          let d := mkRunningData url ipAddr
          let openEvs : List InvokeEv := if !serverMode then [.windowOpened] else []
          let s2 : VState :=
            { s with
              status := .running d
              matched := true
              lastRunningData := some d
              windowOpen := s.windowOpen || !serverMode }
          (s2, openEvs ++ [.status (.running d)])
        | none => (s, [])
      else (s, [])
    else (s, [])
  | .procExit exitCode signal =>
    if s.ptyAlive then
      let st := classifyExit exitCode signal
      ({ s with status := st, ptyAlive := false, currentPty := false, windowOpen := false },
        [.status st, .windowClosed])
    else (s, [])
  | .windowCrash reason =>
    if s.windowOpen then
      match s.lastRunningData with
      | some d =>
        if s.currentPty then
          ({ s with status := .windowCrashed d (crashReasonMessage reason), windowOpen := false },
            [.status (.windowCrashed d (crashReasonMessage reason)), .windowClosed])
        else ({ s with windowOpen := false }, [.windowClosed])
      | none => ({ s with windowOpen := false }, [.windowClosed])
    else (s, [])
  | .exitInvoke =>
    ({ s with status := .exiting, windowOpen := false, currentPty := false },
      [.status .exiting]
        ++ (if s.windowOpen then [.windowClosed] else [])
        ++ (if s.currentPty then [.procKill] else []))
  | .reopenWindow =>
    if s.windowOpen then (s, [])
    else
      match s.lastRunningData with
      | none => (s, [])
      | some d =>
        if s.currentPty then
          ({ s with status := .running d, windowOpen := true },
            [.windowOpened, .status (.running d)])
        else (s, [])

/-- A full supervised run: `startInvoke` followed by the delivered
events. -/
def invokeRun (isInstalled serverMode : Bool) (ipAddr : String) (events : List VEvent) :
    VState × List InvokeEv :=
  events.foldl
    (fun acc e =>
      let r := vstep serverMode ipAddr acc.1 e
      (r.1, acc.2 ++ r.2))
    (startInvokeInit isInstalled)

/-- Discriminator for the `running` tag. -/
def InvokeStatus.isRun : InvokeStatus → Bool
  | .running _ => true
  | _ => false

/-- Discriminator for the `window-crashed` tag. -/
def InvokeStatus.isCrashed : InvokeStatus → Bool
  | .windowCrashed _ _ => true
  | _ => false

/-- The application state machine exactly as the claim words it:
`uninitialized → starting → running → exiting → (exited | error |
window-crashed)` (payloads ignored). -/
def invokeDeclared : InvokeStatus → InvokeStatus → Bool
  | .uninitialized, .starting => true
  | .starting, .running _ => true
  | .running _, .exiting => true
  | .exiting, .exited => true
  | .exiting, .error _ => true
  | .exiting, .windowCrashed _ _ => true
  | _, _ => false

/-- The transitions the supervisor code actually performs (the declared
ones plus: precondition failure and process death straight from
`starting`; exit classification straight from `running`,
`window-crashed` and `exiting`; `window-crashed` only from `running`;
re-`running` via a repeated readiness match window reopen; `exiting`
from any state on an explicit exit request; and the readiness match
landing while `exiting`). -/
def invokeActual : InvokeStatus → InvokeStatus → Bool
  | .uninitialized, .starting => true
  | .starting, .running _ => true
  | .starting, .error _ => true
  | .starting, .exited => true
  | .starting, .exiting => true
  | .running _, .running _ => true
  | .running _, .exited => true
  | .running _, .error _ => true
  | .running _, .windowCrashed _ _ => true
  | .running _, .exiting => true
  | .exiting, .running _ => true
  | .exiting, .exited => true
  | .exiting, .error _ => true
  | .exiting, .exiting => true
  | .windowCrashed _ _, .running _ => true
  | .windowCrashed _ _, .exited => true
  | .windowCrashed _ _, .error _ => true
  | .windowCrashed _ _, .exiting => true
  | .exited, .exiting => true
  | .error _, .exiting => true
  | _, _ => false

/-- Transition checker over supervisor events. -/
def vStatusTraceOk (R : InvokeStatus → InvokeStatus → Bool) :
    InvokeStatus → List InvokeEv → Bool
  | _, [] => true
  | cur, .status nxt :: rest => R cur nxt && vStatusTraceOk R nxt rest
  | cur, _ :: rest => vStatusTraceOk R cur rest

/-- Final recorded status of a supervisor event list. -/
def vLastStatusD : InvokeStatus → List InvokeEv → InvokeStatus
  | cur, [] => cur
  | _, .status nxt :: rest => vLastStatusD nxt rest
  | cur, _ :: rest => vLastStatusD cur rest

/-- Reachability invariant of the supervisor state. -/
def VInv (s : VState) : Prop :=
  s.status ≠ .uninitialized ∧
  (s.windowOpen = true → s.status.isRun = true) ∧
  (s.lastRunningData.isSome = true → s.currentPty = true →
    (s.status.isRun || s.status.isCrashed) = true) ∧
  (s.ptyAlive = true →
    (s.status = .starting ∨ s.status.isRun = true ∨ s.status = .exiting ∨
      s.status.isCrashed = true)) ∧
  (s.matched = false →
    s.lastRunningData = none ∧ s.status.isRun = false ∧ s.status.isCrashed = false)

/-- Recursive form of the supervisor's event fold. -/
def vrun (serverMode : Bool) (ipAddr : String) (s : VState) : List VEvent → VState × List InvokeEv
  | [] => (s, [])
  | e :: rest =>
    let r := vstep serverMode ipAddr s e
    let r2 := vrun serverMode ipAddr r.1 rest
    (r2.1, r.2 ++ r2.2)

/-- First chunk accepted by the readiness watcher, and the URL it
yields. -/
def firstReadyUrl : List String → Option String
  | [] => none
  | c :: rest =>
    match watcherMatch c with
    | some url => some url
    | none => firstReadyUrl rest

/-- Number of `running` status records in a supervisor trace. -/
def countRunning : List InvokeEv → Nat
  | [] => 0
  | .status (.running _) :: rest => 1 + countRunning rest
  | _ :: rest => countRunning rest

/-! ## Single-Command Runner (`lib/command-runner`, awaited-kill variant)

`CommandRunner.runCommand` first kills any existing command and then
spawns the new one.  `kill` clears `currentEntry`, sends the
termination request, and awaits `killPtyProcessAsync`, which resolves
either when the killed process's exit notification arrives or when the
bounded timeout (default 5000 ms) expires first — in the latter case it
logs `did not exit within …ms, continuing anyway` and resolves with the
process still alive.  When the exit notification does arrive, the
pending `runCommand` future resolves from its own `onExit` handler
(registered at spawn time, hence before the kill-wait's handler), so it
settles before the kill-wait completes.  The model linearises one
`runCommand` call into this event trace; `exitsInTime` says whether the
killed process exits within the kill timeout. -/

/-- Events of the command-runner model, tagged with process ids. -/
inductive CEv where
  | spawn (pid : Nat)
  | sigterm (pid : Nat)
  | procExited (pid : Nat)
  | futureSettled (pid : Nat)
  | killTimeout (pid : Nat)
  deriving DecidableEq, Repr

/-- The runner's only mutable field: `currentEntry` (as the pid of the
current process, if any). -/
structure CRState where
  current : Option Nat
  deriving DecidableEq, Repr

/-- `CommandRunner.kill` (awaited): clear the entry, send the
termination request, and wait for exit or timeout. -/
def crKill (exitsInTime : Bool) (s : CRState) : CRState × List CEv :=
  match s.current with
  | none => (s, [])
  | some pid =>
    ({ current := none },
      .sigterm pid ::
        (if exitsInTime then [.procExited pid, .futureSettled pid] else [.killTimeout pid]))

/-- `CommandRunner.runCommand`: kill (and await) any existing command,
then spawn the new one. -/
def crRunCommand (exitsInTime : Bool) (newPid : Nat) (s : CRState) : CRState × List CEv :=
  let r := if s.current.isSome then crKill exitsInTime s else (s, [])
  ({ current := some newPid }, r.2 ++ [.spawn newPid])

/-- The two-command scenario of the claim: command A was spawned (its
future pending), then `runCommand` for B is called while A is
unresolved.  If A's process outlives the kill timeout, it exits (and
A's future settles) only after B was already spawned. -/
def runTwoCommands (exitsInTime : Bool) (pidA pidB : Nat) : List CEv :=
  let r := crRunCommand exitsInTime pidB { current := some pidA }
  .spawn pidA ::
    (r.2 ++ (if exitsInTime then [] else [.procExited pidA, .futureSettled pidA]))

/-- Index of the first occurrence of an event in a trace. -/
def firstIdx (e : CEv) : List CEv → Option Nat
  | [] => none
  | x :: rest => if x = e then some 0 else (firstIdx e rest).map (· + 1)

/-- Largest number of simultaneously live command processes along a
trace. -/
def maxAliveGo (alive best : Nat) : List CEv → Nat
  | [] => best
  | .spawn _ :: rest => maxAliveGo (alive + 1) (max best (alive + 1)) rest
  | .procExited _ :: rest => maxAliveGo (alive - 1) best rest
  | _ :: rest => maxAliveGo alive best rest

/-- Maximum number of live processes over a trace. -/
def maxAlive (l : List CEv) : Nat := maxAliveGo 0 0 l

def initIStateW : IState := initIState

def c1PinsW : InstallPins := { python := "3.11.9", torchIndexUrl := none }

def c1EnvW : InstallEnv :=
  { locationOk := true, archOk := true, pins := some c1PinsW,
    details := { isInstalled := false, version := "", pythonVersion := "" },
    repair := false, uvOk := true, hasVenv := false,
    exitPython := 0, exitVenv := 0, exitInstall := 0, cancelAt := some 2 }

/-- An environment in the claimed cancellation window whose uv preflight
fails: cancel delivered at await 3 (after pin resolution, before the
interpreter-install step), `uvOk = false`. -/
def c1EnvX : InstallEnv :=
  { locationOk := true, archOk := true, pins := some c1PinsW,
    details := { isInstalled := false, version := "", pythonVersion := "" },
    repair := false, uvOk := false, hasVenv := false,
    exitPython := 0, exitVenv := 0, exitInstall := 0, cancelAt := some 3 }

def c4EnvW : InstallEnv :=
  { locationOk := true, archOk := true, pins := some c1PinsW,
    details := { isInstalled := true, version := "v5.10.0", pythonVersion := "3.11.4" },
    repair := false, uvOk := true, hasVenv := true,
    exitPython := 0, exitVenv := 0, exitInstall := 0, cancelAt := none }

def c3EnvX : InstallEnv :=
  { locationOk := false, archOk := true, pins := none,
    details := { isInstalled := false, version := "", pythonVersion := "" },
    repair := false, uvOk := false, hasVenv := false,
    exitPython := 0, exitVenv := 0, exitInstall := 0, cancelAt := none }

/-! ## Marker-protocol PTY manager (`PtyManager` with `runCommand` /
`checkForCommandCompletion`)

`runCommand` registers a single-use marker and writes the wrapped
command into the session's shell; `checkForCommandCompletion` scans
each incoming chunk for `<marker>:<digits>` and resolves the pending
future; `dispose`, the session's `onExit` handler, and `teardown`
reject pending futures.  The futures ledger records the observable
settlement of each marker's promise (a JavaScript promise settles at
most once; re-settling is a no-op, which `settleFuture` mirrors by only
replacing a `pending` entry).  Markers are single-use `nanoid`s, so the
event alphabet contains no re-registration of an existing marker. -/

/-- One `CommandExecution` registration (owning pty id, marker,
accumulated output chunks). -/
structure CommandExecution where
  id : String
  marker : String
  output : List String
  deriving DecidableEq, Repr

/-- Settlement state of a pending command's promise. -/
inductive FutureState where
  | pending
  | resolved (exitCode : Nat) (output : String)
  | rejected (message : String)
  deriving DecidableEq, Repr

/-- The marker-protocol manager's state: the session index, the
`activeCommands` map (keyed by marker, insertion-ordered like a
JavaScript `Map`), and the futures ledger. -/
structure PMState where
  ptys : List String
  activeCommands : List (String × CommandExecution)
  futures : List (String × FutureState)
  deriving Repr

/-- Association-list lookup (JavaScript `Map.get`; keys are unique in a
`Map`). -/
def lookupKV {β : Type} (m : String) : List (String × β) → Option β
  | [] => none
  | (k, v) :: rest => if k = m then some v else lookupKV m rest

/-- Settle marker `m`'s promise: only a `pending` entry changes (a
JavaScript promise settles at most once). -/
def settleFuture (m : String) (v : FutureState) :
    List (String × FutureState) → List (String × FutureState)
  | [] => []
  | (k, w) :: rest =>
    if k = m then
      (if w = .pending then (m, v) else (k, w)) :: settleFuture m v rest
    else (k, w) :: settleFuture m v rest

/-- Apply a batch of settlements in order. -/
def applySettlements (sets : List (String × FutureState))
    (fs : List (String × FutureState)) : List (String × FutureState) :=
  sets.foldl (fun acc p => settleFuture p.1 p.2 acc) fs

/-- `checkForCommandCompletion`'s loop over the active commands of one
data chunk: for each command owned by the chunk's session, push the
chunk onto its output; if the chunk matches `<marker>:(\d+)`, drop the
registration and resolve with the parsed code and the joined output.
Returns the new `activeCommands` and the settlements to apply. -/
def checkCmds (ptyId data : String) :
    List (String × CommandExecution)
      → List (String × CommandExecution) × List (String × FutureState)
  | [] => ([], [])
  | (m, cmd) :: rest =>
    if cmd.id = ptyId then
      let cmd2 := { cmd with output := cmd.output ++ [data] }
      match findMarkerCode m data with
      | some code =>
        let r := checkCmds ptyId data rest
        (r.1, (m, .resolved code (String.join cmd2.output)) :: r.2)
      | none =>
        let r := checkCmds ptyId data rest
        ((m, cmd2) :: r.1, r.2)
    else
      let r := checkCmds ptyId data rest
      ((m, cmd) :: r.1, r.2)

/-- The rejection loop shared by `dispose` and the `onExit` handler:
drop every registration owned by the session and reject its future. -/
def rejectCmds (ptyId msg : String) :
    List (String × CommandExecution)
      → List (String × CommandExecution) × List (String × FutureState)
  | [] => ([], [])
  | (m, cmd) :: rest =>
    let r := rejectCmds ptyId msg rest
    if cmd.id = ptyId then (r.1, (m, .rejected msg) :: r.2)
    else ((m, cmd) :: r.1, r.2)

/-- `runCommand`'s registration step (the wrapped command is written to
the shell; only the bookkeeping is relevant here).  A `nanoid` marker
is fresh: it is not already a key of the ledger. -/
def registerCommand (ptyId marker : String) (s : PMState) : PMState :=
  if ptyId ∈ s.ptys then
    { s with
      activeCommands := s.activeCommands ++ [(marker, ⟨ptyId, marker, []⟩)]
      futures := s.futures ++ [(marker, .pending)] }
  else s

/-- The session's `onData` callback: `checkForCommandCompletion`. -/
def onDataPM (ptyId data : String) (s : PMState) : PMState :=
  if ptyId ∈ s.ptys then
    let r := checkCmds ptyId data s.activeCommands
    { s with activeCommands := r.1, futures := applySettlements r.2 s.futures }
  else s

/-- The session's `onExit` handler: reject the session's pending
commands, then remove the session from the index. -/
def onExitPM (ptyId : String) (exitCode : Int) (s : PMState) : PMState :=
  let r := rejectCmds ptyId
    ("Process exited with code " ++ toString exitCode ++ " before command completed")
    s.activeCommands
  { ptys := s.ptys.filter (fun q => q ≠ ptyId)
    activeCommands := r.1
    futures := applySettlements r.2 s.futures }

/-- `dispose`: reject the session's pending commands (this runs before
the session lookup, so it applies even to an unknown id), then kill and
remove the session if it exists. -/
def disposePM (ptyId : String) (s : PMState) : PMState :=
  let r := rejectCmds ptyId "PTY was disposed" s.activeCommands
  { ptys := s.ptys.filter (fun q => q ≠ ptyId)
    activeCommands := r.1
    futures := applySettlements r.2 s.futures }

/-- `teardown`: reject every pending command, then dispose every
session. -/
def teardownPM (s : PMState) : PMState :=
  { ptys := []
    activeCommands := []
    futures := applySettlements
      (s.activeCommands.map fun p => (p.1, .rejected "PTY manager was torn down"))
      s.futures }

/-- External events of the marker-protocol manager. -/
inductive PMEvent where
  | dataEv (ptyId data : String)
  | exitEv (ptyId : String) (exitCode : Int)
  | disposeEv (ptyId : String)
  | teardownEv
  deriving Repr

/-- One event step. -/
def pmStep (s : PMState) : PMEvent → PMState
  | .dataEv p d => onDataPM p d s
  | .exitEv p c => onExitPM p c s
  | .disposeEv p => disposePM p s
  | .teardownEv => teardownPM s

/-- A run of events. -/
def pmRun (s : PMState) (es : List PMEvent) : PMState :=
  es.foldl pmStep s

/-! ## PTY session manager (`src/src/lib/pty.ts`)

The session index is a JavaScript `Map` keyed by session id.  `write`,
`resize`, `kill` and `dispose` all go through the `do` helper, which
looks the id up and returns the `PtyNotFound` symbol — running no
callback — when the id is absent.  The model returns the new index
together with the list of process-level actions performed; a missing id
therefore yields the unchanged index and an empty action list, and the
functions are total (nothing throws). -/

/-- A session entry: its id, the replay history buffer and the pending
incomplete ANSI sequence (the `process` handle is externalised into
`PtyAction`s). -/
structure SEntry where
  id : String
  history : List String
  ansiBuf : String
  deriving DecidableEq, Repr

/-- Process-level effects of the session manager's operations. -/
inductive PtyAction where
  | writeAct (id data : String)
  | resizeAct (id : String) (cols rows : Nat)
  | killAct (id : String)
  deriving DecidableEq, Repr

/-- `write(id, data)`: via `do`, writes to the session's process; absent
id → `PtyNotFound`, no action. -/
def writePty (id data : String) (s : List (String × SEntry)) :
    List (String × SEntry) × List PtyAction :=
  match lookupKV id s with
  | none => (s, [])
  | some _ => (s, [.writeAct id data])

/-- `resize(id, cols, rows)`: via `do`, resizes the session's process;
absent id → `PtyNotFound`, no action. -/
def resizePty (id : String) (cols rows : Nat) (s : List (String × SEntry)) :
    List (String × SEntry) × List PtyAction :=
  match lookupKV id s with
  | none => (s, [])
  | some _ => (s, [.resizeAct id cols rows])

/-- `dispose(id)`: via `do`, kills the process, clears the entry's
buffers and deletes the entry from the index; absent id →
`PtyNotFound`, nothing happens.  (The cleared buffers belong to the
deleted entry, so deletion subsumes them.) -/
def disposePty (id : String) (s : List (String × SEntry)) :
    List (String × SEntry) × List PtyAction :=
  match lookupKV id s with
  | none => (s, [])
  | some _ => (s.filter (fun q => q.1 ≠ id), [.killAct id])

theorem statusTraceOk_append (R : InstallStatus → InstallStatus → Bool)
    (cur : InstallStatus) (l1 l2 : List InstallEv) :
    statusTraceOk R cur (l1 ++ l2)
      = (statusTraceOk R cur l1 && statusTraceOk R (lastStatusD cur l1) l2) := by
  induction l1 generalizing cur with
  | nil => simp [statusTraceOk, lastStatusD]
  | cons e rest ih =>
    cases e with
    | status s => simp [statusTraceOk, lastStatusD, ih, Bool.and_assoc]
    | spawn k => simp [statusTraceOk, lastStatusD, ih]
    | kill => simp [statusTraceOk, lastStatusD, ih]
    | warnNoInstallToCancel => simp [statusTraceOk, lastStatusD, ih]
    | assertFailed => simp [statusTraceOk, lastStatusD, ih]

theorem lastStatusD_append (cur : InstallStatus) (l1 l2 : List InstallEv) :
    lastStatusD cur (l1 ++ l2) = lastStatusD (lastStatusD cur l1) l2 := by
  induction l1 generalizing cur with
  | nil => simp [lastStatusD]
  | cons e rest ih =>
    cases e with
    | status s => simp [lastStatusD, ih]
    | spawn k => simp [lastStatusD, ih]
    | kill => simp [lastStatusD, ih]
    | warnNoInstallToCancel => simp [lastStatusD, ih]
    | assertFailed => simp [lastStatusD, ih]

theorem noSpawnAfterCancelFrom_append (seen : Bool) (l1 l2 : List InstallEv) :
    noSpawnAfterCancelFrom seen (l1 ++ l2)
      = (noSpawnAfterCancelFrom seen l1
          && noSpawnAfterCancelFrom (seen || hasCancelingStatus l1) l2) := by
  induction l1 generalizing seen with
  | nil => simp [noSpawnAfterCancelFrom, hasCancelingStatus]
  | cons e rest ih =>
    cases e with
    | status s =>
      cases s <;>
        simp [noSpawnAfterCancelFrom, hasCancelingStatus, ih, Bool.and_assoc]
    | spawn k => simp [noSpawnAfterCancelFrom, hasCancelingStatus, ih, Bool.and_assoc]
    | kill => simp [noSpawnAfterCancelFrom, hasCancelingStatus, ih]
    | warnNoInstallToCancel => simp [noSpawnAfterCancelFrom, hasCancelingStatus, ih]
    | assertFailed => simp [noSpawnAfterCancelFrom, hasCancelingStatus, ih]

theorem hasCancelingStatus_append (l1 l2 : List InstallEv) :
    hasCancelingStatus (l1 ++ l2) = (hasCancelingStatus l1 || hasCancelingStatus l2) := by
  induction l1 with
  | nil => simp [hasCancelingStatus]
  | cons e rest ih =>
    cases e with
    | status s => cases s <;> simp [hasCancelingStatus, ih]
    | spawn k => simp [hasCancelingStatus, ih]
    | kill => simp [hasCancelingStatus, ih]
    | warnNoInstallToCancel => simp [hasCancelingStatus, ih]
    | assertFailed => simp [hasCancelingStatus, ih]

theorem awaitPoint_spec (env : InstallEnv) (n : Nat) (base : InstallStatus) (s : IState)
    (hbase : base = .starting ∨ base = .installing) (h : flagOk base s) :
    statusTraceOk installActual s.status (awaitPoint env n s).2 = true ∧
    lastStatusD s.status (awaitPoint env n s).2 = (awaitPoint env n s).1.status ∧
    flagOk base (awaitPoint env n s).1 ∧
    noSpawnAfterCancelFrom s.cancelRequested (awaitPoint env n s).2 = true ∧
    (s.cancelRequested || hasCancelingStatus (awaitPoint env n s).2)
      = (awaitPoint env n s).1.cancelRequested ∧
    (s.runnerActive = false → (awaitPoint env n s).1.runnerActive = false) ∧
    (∀ k, InstallEv.spawn k ∉ (awaitPoint env n s).2) := by
  unfold awaitPoint cancelInstallM
  rcases hra : s.runnerActive with _ | _ <;>
    rcases h with ⟨hc, hs⟩ | ⟨hc, hs | hs⟩ <;> rcases hbase with hb | hb <;>
    subst hb <;>
    split <;>
    simp_all [flagOk, statusTraceOk, lastStatusD, installActual, installDeclared,
      noSpawnAfterCancelFrom, hasCancelingStatus]

theorem runCommandM_spec (env : InstallEnv) (k : StepKind) (c : Int) (n : Nat) (s : IState)
    (h : midOk .installing s) :
    statusTraceOk installActual s.status (runCommandM env k c n s).2.2 = true ∧
    lastStatusD s.status (runCommandM env k c n s).2.2 = (runCommandM env k c n s).2.1.status ∧
    midOk .installing (runCommandM env k c n s).2.1 ∧
    noSpawnAfterCancelFrom s.cancelRequested (runCommandM env k c n s).2.2 = true ∧
    (s.cancelRequested || hasCancelingStatus (runCommandM env k c n s).2.2)
      = (runCommandM env k c n s).2.1.cancelRequested ∧
    ((runCommandM env k c n s).1 = .canceled →
      (runCommandM env k c n s).2.1.cancelRequested = true) ∧
    ((runCommandM env k c n s).1 = .success ∨ (runCommandM env k c n s).1 = .errorExit →
      (runCommandM env k c n s).2.1.status = .installing ∧
      (runCommandM env k c n s).2.1.cancelRequested = false) ∧
    (runCommandM env k c n s).1 ≠ .skipped ∧
    (∀ j, InstallEv.spawn j ∈ (runCommandM env k c n s).2.2 → j = k ∧ s.cancelRequested = false) := by
  obtain ⟨hr, hc⟩ := h
  rcases hc with ⟨hc, hs⟩ | ⟨hc, hs⟩
  · -- flag unset: spawn, await the command, post-checks
    have ha := awaitPoint_spec env n .installing { s with runnerActive := true } (Or.inr rfl)
      (Or.inl ⟨hc, hs⟩)
    unfold runCommandM
    simp only [hc, hs]
    obtain ⟨a1, a2, a3, a4, a5, a7, a6⟩ := ha
    rcases hP : awaitPoint env n { s with runnerActive := true } with ⟨s2, evs2⟩
    simp only [hP] at a1 a2 a3 a4 a5 a7 a6 ⊢
    simp only [hc] at a5
    rcases a3 with ⟨b1, b2⟩ | ⟨b1, b2 | b2⟩ <;>
      split <;>
      simp_all [midOk, flagOk, statusTraceOk, lastStatusD, installActual, installDeclared,
        noSpawnAfterCancelFrom, hasCancelingStatus] <;>
      split <;>
      simp_all [midOk, flagOk, statusTraceOk, lastStatusD, installActual, installDeclared,
        noSpawnAfterCancelFrom, hasCancelingStatus]
  · -- flag already set: immediate canceled, no spawn
    rcases hs with hs | hs <;>
      simp_all [runCommandM, midOk, flagOk, statusTraceOk, lastStatusD,
        noSpawnAfterCancelFrom, hasCancelingStatus]

theorem startingPhase_spec (env : InstallEnv) (s0 : IState) (h : s0.runnerActive = false) :
    IFlow.post .uninitialized false .starting [] (startingPhase env s0) := by
  unfold startingPhase
  have hf0 : flagOk .starting { s0 with cancelRequested := false, status := InstallStatus.starting } :=
    Or.inl ⟨rfl, rfl⟩
  obtain ⟨q1, q2, q3, q4, q5, q7, q6⟩ :=
    awaitPoint_spec env 0 .starting _ (Or.inl rfl) hf0
  rcases hA0 : awaitPoint env 0 { s0 with cancelRequested := false, status := InstallStatus.starting }
    with ⟨sA, eA⟩
  simp only [hA0] at q1 q2 q3 q4 q5 q7 q6 ⊢
  obtain ⟨w1, w2, w3, w4, w5, w7, w6⟩ := awaitPoint_spec env 1 .starting sA (Or.inl rfl) q3
  rcases hA1 : awaitPoint env 1 sA with ⟨sB, eB⟩
  simp only [hA1] at w1 w2 w3 w4 w5 w7 w6 ⊢
  obtain ⟨v1, v2, v3, v4, v5, v7, v6⟩ := awaitPoint_spec env 2 .starting sB (Or.inl rfl) w3
  rcases hA2 : awaitPoint env 2 sB with ⟨sC, eC⟩
  simp only [hA2] at v1 v2 v3 v4 v5 v7 v6 ⊢
  rcases q3 with ⟨q3a, q3b⟩ | ⟨q3a, q3b | q3b⟩ <;> rcases w3 with ⟨w3a, w3b⟩ | ⟨w3a, w3b | w3b⟩ <;>
    rcases v3 with ⟨v3a, v3b⟩ | ⟨v3a, v3b | v3b⟩ <;>
    repeat' split
  all_goals
    simp_all [IFlow.post, statusTraceOk_append, lastStatusD_append, noSpawnAfterCancelFrom_append,
      hasCancelingStatus_append, statusTraceOk, lastStatusD, noSpawnAfterCancelFrom,
      hasCancelingStatus, installActual, installDeclared, midOk, flagOk, Bool.or_assoc]

theorem uvPhase_spec (env : InstallEnv) (s : IState) (h : midOk .starting s) :
    IFlow.post s.status s.cancelRequested .installing [] (uvPhase env s) := by
  obtain ⟨hr, hflag⟩ := h
  unfold uvPhase
  obtain ⟨q1, q2, q3, q4, q5, q7, q6⟩ := awaitPoint_spec env 3 .starting s (Or.inl rfl) hflag
  rcases hA : awaitPoint env 3 s with ⟨sA, eA⟩
  simp only [hA] at q1 q2 q3 q4 q5 q7 q6 ⊢
  rcases q3 with ⟨q3a, q3b⟩ | ⟨q3a, q3b | q3b⟩ <;>
    repeat' split
  all_goals
    simp_all [IFlow.post, statusTraceOk_append, lastStatusD_append, noSpawnAfterCancelFrom_append,
      hasCancelingStatus_append, statusTraceOk, lastStatusD, noSpawnAfterCancelFrom,
      hasCancelingStatus, installActual, installDeclared, midOk, flagOk, Bool.or_assoc]

set_option maxHeartbeats 800000 in
theorem pythonPhase_spec (env : InstallEnv) (s : IState) (h : midOk .installing s) :
    IFlow.post s.status s.cancelRequested .installing
      (if needPythonInstall env then [.python] else []) (pythonPhase env s) := by
  unfold pythonPhase
  rcases hnp : needPythonInstall env with _ | _
  · -- step skipped
    obtain ⟨hr, hflag⟩ := h
    rcases hflag with ⟨ha, hb⟩ | ⟨ha, hb | hb⟩ <;>
      simp_all [IFlow.post, statusTraceOk, lastStatusD, noSpawnAfterCancelFrom,
        hasCancelingStatus, midOk, flagOk] <;>
      decide
  · obtain ⟨r1, r2, r3, r4, r5, r6, r7, r9, r8⟩ := runCommandM_spec env .python env.exitPython 4 s h
    rcases hR : runCommandM env .python env.exitPython 4 s with ⟨res, sA, eA⟩
    simp only [hR] at r1 r2 r3 r4 r5 r6 r7 r9 r8 ⊢
    obtain ⟨rr, rflag⟩ := r3
    rcases rflag with ⟨ha, hb⟩ | ⟨ha, hb | hb⟩ <;>
      repeat' split
    all_goals
      simp_all [IFlow.post, statusTraceOk_append, lastStatusD_append, noSpawnAfterCancelFrom_append,
        hasCancelingStatus_append, statusTraceOk, lastStatusD, noSpawnAfterCancelFrom,
        hasCancelingStatus, installActual, installDeclared, midOk, flagOk, Bool.or_assoc]
    all_goals (first | (intro k hk; first | exact r8 k hk | exact (r8 k hk).1 | simp [r8 k hk]) | (cases res <;> simp_all))

set_option maxHeartbeats 1600000 in
theorem venvPhase_spec (env : InstallEnv) (s : IState) (h : midOk .installing s) :
    IFlow.post s.status s.cancelRequested .installing [.venv] (venvPhase env s) := by
  unfold venvPhase
  obtain ⟨hr, hflag⟩ := h
  obtain ⟨q1, q2, q3, q4, q5, q7, q6⟩ :=
    awaitPoint_spec env 5 .installing s (Or.inr rfl) hflag
  rcases h5 : awaitPoint env 5 s with ⟨s5, e5⟩
  simp only [h5] at q1 q2 q3 q4 q5 q7 q6 ⊢
  have hm5 : midOk .installing s5 := ⟨q7 hr, q3⟩
  rcases hg : (needPythonInstall env && env.hasVenv) with _ | _
  · -- no venv deletion; hasVenv = env.hasVenv
    try simp only [hg]
    rcases hv : env.hasVenv with _ | _
    · -- no venv: run the create-venv command
      obtain ⟨r1, r2, r3, r4, r5, r6, r7, r9, r8⟩ := runCommandM_spec env .venv env.exitVenv 7 s5 hm5
      rcases hR : runCommandM env .venv env.exitVenv 7 s5 with ⟨res, sA, eA⟩
      simp only [hR] at r1 r2 r3 r4 r5 r6 r7 r9 r8 ⊢
      obtain ⟨rr, rflag⟩ := r3
      rcases rflag with ⟨ha, hb⟩ | ⟨ha, hb | hb⟩ <;>
        repeat' split
      all_goals
        simp_all [IFlow.post, statusTraceOk_append, lastStatusD_append,
          noSpawnAfterCancelFrom_append, hasCancelingStatus_append, statusTraceOk, lastStatusD,
          noSpawnAfterCancelFrom, hasCancelingStatus, installActual, installDeclared, midOk,
          flagOk, Bool.or_assoc, hg]
      all_goals (first | (intro k hk; first | exact r8 k hk | exact (r8 k hk).1 | simp [r8 k hk]) | (cases res <;> simp_all))
    · -- venv exists: reuse it, only the trailing cancellation check
      obtain ⟨hr5, hflag5⟩ := hm5
      rcases hflag5 with ⟨ha, hb⟩ | ⟨ha, hb | hb⟩ <;>
        repeat' split
      all_goals
        simp_all [IFlow.post, statusTraceOk_append, lastStatusD_append,
          noSpawnAfterCancelFrom_append, hasCancelingStatus_append, statusTraceOk, lastStatusD,
          noSpawnAfterCancelFrom, hasCancelingStatus, installActual, installDeclared, midOk,
          flagOk, Bool.or_assoc, hg]
  · -- repair/mismatch with an existing venv: await its deletion, then create it
    try simp only [hg]
    obtain ⟨w1, w2, w3, w4, w5, w7, w6⟩ :=
      awaitPoint_spec env 6 .installing s5 (Or.inr rfl) q3
    rcases h6 : awaitPoint env 6 s5 with ⟨s6, e6⟩
    simp only [h6] at w1 w2 w3 w4 w5 w7 w6 ⊢
    have hm6 : midOk .installing s6 := ⟨w7 (q7 hr), w3⟩
    obtain ⟨r1, r2, r3, r4, r5, r6, r7, r9, r8⟩ := runCommandM_spec env .venv env.exitVenv 7 s6 hm6
    rcases hR : runCommandM env .venv env.exitVenv 7 s6 with ⟨res, sA, eA⟩
    simp only [hR] at r1 r2 r3 r4 r5 r6 r7 r9 r8 ⊢
    obtain ⟨rr, rflag⟩ := r3
    rcases rflag with ⟨ha, hb⟩ | ⟨ha, hb | hb⟩ <;>
      repeat' split
    all_goals
      simp_all [IFlow.post, statusTraceOk_append, lastStatusD_append,
        noSpawnAfterCancelFrom_append, hasCancelingStatus_append, statusTraceOk, lastStatusD,
        noSpawnAfterCancelFrom, hasCancelingStatus, installActual, installDeclared, midOk,
        flagOk, Bool.or_assoc]
    all_goals (first | (intro k hk; first | exact r8 k hk | exact (r8 k hk).1 | simp [r8 k hk]) | (cases res <;> simp_all))

set_option maxHeartbeats 800000 in
theorem installPkgPhase_spec (env : InstallEnv) (s : IState) (h : midOk .installing s) :
    statusTraceOk installActual s.status (installPkgPhase env s).2 = true ∧
    noSpawnAfterCancelFrom s.cancelRequested (installPkgPhase env s).2 = true ∧
    (∀ k, InstallEv.spawn k ∈ (installPkgPhase env s).2 → k = .installPkg) := by
  unfold installPkgPhase
  obtain ⟨r1, r2, r3, r4, r5, r6, r7, r9, r8⟩ :=
    runCommandM_spec env .installPkg env.exitInstall 8 s h
  rcases hR : runCommandM env .installPkg env.exitInstall 8 s with ⟨res, sA, eA⟩
  simp only [hR] at r1 r2 r3 r4 r5 r6 r7 r9 r8 ⊢
  obtain ⟨rr, rflag⟩ := r3
  rcases rflag with ⟨ha, hb⟩ | ⟨ha, hb | hb⟩ <;>
    repeat' split
  all_goals
    simp_all [IFlow.post, statusTraceOk_append, lastStatusD_append,
      noSpawnAfterCancelFrom_append, hasCancelingStatus_append, statusTraceOk, lastStatusD,
      noSpawnAfterCancelFrom, hasCancelingStatus, installActual, installDeclared, midOk,
      flagOk, Bool.or_assoc]
  all_goals (first | (intro k hk; first | exact r8 k hk | exact (r8 k hk).1 | simp [r8 k hk]) | (cases res <;> simp_all))

set_option maxHeartbeats 800000 in
theorem startInstallTrace_spec (env : InstallEnv) (s0 : IState) (h : s0.runnerActive = false) :
    statusTraceOk installActual .uninitialized (startInstallTrace env s0).2 = true ∧
    noSpawnAfterCancelFrom false (startInstallTrace env s0).2 = true ∧
    (InstallEv.spawn .python ∈ (startInstallTrace env s0).2 → needPythonInstall env = true) := by
  unfold startInstallTrace
  have hs := startingPhase_spec env s0 h
  rcases hS : startingPhase env s0 with ⟨s1, e1⟩ | ⟨s1, e1⟩ <;>
    rw [hS] at hs <;> simp only [IFlow.post] at hs
  · -- workflow returned during the starting phase
    obtain ⟨p1, p2, p3⟩ := hs
    simp_all [IFlow.seq, statusTraceOk_append, noSpawnAfterCancelFrom_append]
  obtain ⟨p1, p2, pmid, p4, p5, p6⟩ := hs
  have hu := uvPhase_spec env s1 pmid
  rcases hU : uvPhase env s1 with ⟨s2, e2⟩ | ⟨s2, e2⟩ <;>
    rw [hU] at hu <;> simp only [IFlow.post] at hu
  · obtain ⟨u1, u2, u3⟩ := hu
    simp_all [IFlow.seq, statusTraceOk_append, noSpawnAfterCancelFrom_append, p2, p5]
  obtain ⟨u1, u2, umid, u4, u5, u6⟩ := hu
  have hp := pythonPhase_spec env s2 umid
  rcases hP : pythonPhase env s2 with ⟨s3, e3⟩ | ⟨s3, e3⟩ <;>
    rw [hP] at hp <;> simp only [IFlow.post] at hp
  · obtain ⟨y1, y2, y3⟩ := hp
    simp_all [IFlow.seq, statusTraceOk_append, noSpawnAfterCancelFrom_append,
      lastStatusD_append, hasCancelingStatus_append]
    exact fun hk => (y3 _ hk).1
  obtain ⟨y1, y2, ymid, y4, y5, y6⟩ := hp
  have hv := venvPhase_spec env s3 ymid
  rcases hV : venvPhase env s3 with ⟨s4, e4⟩ | ⟨s4, e4⟩ <;>
    rw [hV] at hv <;> simp only [IFlow.post] at hv
  · obtain ⟨v1, v2, v3⟩ := hv
    simp only [IFlow.seq, hU, hP, hV]
    refine ⟨?_, ?_, ?_⟩
    · simp [statusTraceOk_append, lastStatusD_append, p1, p2, u1, u2, y1, y2, v1]
    · simp [noSpawnAfterCancelFrom_append, hasCancelingStatus_append, p4, p5, u4, u5, y4, y5, v2,
        Bool.or_assoc]
    · intro hk
      rcases List.mem_append.mp hk with hk | hk
      · exact absurd (p6 _ hk) (by simp)
      rcases List.mem_append.mp hk with hk | hk
      · exact absurd (u6 _ hk) (by simp)
      rcases List.mem_append.mp hk with hk | hk
      · rcases hnp : needPythonInstall env with _ | _
        · have hy := y6 _ hk
          simp [hnp] at hy
        · rfl
      · exact absurd (v3 _ hk) (by simp)
  obtain ⟨v1, v2, vmid, v4, v5, v6⟩ := hv
  have hi := installPkgPhase_spec env s4 vmid
  obtain ⟨i1, i2, i3⟩ := hi
  rcases hI : installPkgPhase env s4 with ⟨s5, e5⟩
  simp only [hI] at i1 i2 i3
  simp only [IFlow.seq, hU, hP, hV, hI]
  refine ⟨?_, ?_, ?_⟩
  · simp [statusTraceOk_append, lastStatusD_append, p1, p2, u1, u2, y1, y2, v1, v2, i1]
  · simp [noSpawnAfterCancelFrom_append, hasCancelingStatus_append, p4, p5, u4, u5, y4, y5, v4, v5,
      i2, Bool.or_assoc]
  · intro hk
    rcases List.mem_append.mp hk with hk | hk
    · exact absurd (p6 _ hk) (by simp)
    rcases List.mem_append.mp hk with hk | hk
    · exact absurd (u6 _ hk) (by simp)
    rcases List.mem_append.mp hk with hk | hk
    · rcases hnp : needPythonInstall env with _ | _
      · have hy := y6 _ hk
        simp [hnp] at hy
      · rfl
    rcases List.mem_append.mp hk with hk | hk
    · exact absurd (v6 _ hk) (by simp)
    · exact absurd (i3 _ hk) (by simp)

theorem vStatusTraceOk_append (R : InvokeStatus → InvokeStatus → Bool)
    (cur : InvokeStatus) (l1 l2 : List InvokeEv) :
    vStatusTraceOk R cur (l1 ++ l2)
      = (vStatusTraceOk R cur l1 && vStatusTraceOk R (vLastStatusD cur l1) l2) := by
  induction l1 generalizing cur with
  | nil => simp [vStatusTraceOk, vLastStatusD]
  | cons e rest ih =>
    cases e with
    | status s => simp [vStatusTraceOk, vLastStatusD, ih, Bool.and_assoc]
    | windowOpened => simp [vStatusTraceOk, vLastStatusD, ih]
    | windowClosed => simp [vStatusTraceOk, vLastStatusD, ih]
    | procKill => simp [vStatusTraceOk, vLastStatusD, ih]

theorem vLastStatusD_append (cur : InvokeStatus) (l1 l2 : List InvokeEv) :
    vLastStatusD cur (l1 ++ l2) = vLastStatusD (vLastStatusD cur l1) l2 := by
  induction l1 generalizing cur with
  | nil => simp [vLastStatusD]
  | cons e rest ih =>
    cases e with
    | status s => simp [vLastStatusD, ih]
    | windowOpened => simp [vLastStatusD, ih]
    | windowClosed => simp [vLastStatusD, ih]
    | procKill => simp [vLastStatusD, ih]

set_option maxHeartbeats 1000000 in
theorem vstep_spec (serverMode : Bool) (ipAddr : String) (s : VState) (e : VEvent)
    (h : VInv s) :
    VInv (vstep serverMode ipAddr s e).1 ∧
    vStatusTraceOk invokeActual s.status (vstep serverMode ipAddr s e).2 = true ∧
    vLastStatusD s.status (vstep serverMode ipAddr s e).2 = (vstep serverMode ipAddr s e).1.status := by
  obtain ⟨h1, h2, h3, h4, h5⟩ := h
  cases e with
  | chunk data =>
    rcases hst : s.status <;>
      simp only [vstep] <;>
      repeat' split
    all_goals
      simp_all [VInv, vStatusTraceOk, vLastStatusD, invokeActual,
        InvokeStatus.isRun, InvokeStatus.isCrashed]
  | procExit exitCode signal =>
    rcases hst : s.status <;>
      simp only [vstep, classifyExit] <;>
      repeat' split
    all_goals
      simp_all [VInv, vStatusTraceOk, vLastStatusD, invokeActual,
        InvokeStatus.isRun, InvokeStatus.isCrashed]
  | windowCrash reason =>
    rcases hst : s.status <;>
      simp only [vstep] <;>
      repeat' split
    all_goals
      simp_all [VInv, vStatusTraceOk, vLastStatusD, invokeActual,
        InvokeStatus.isRun, InvokeStatus.isCrashed]
  | exitInvoke =>
    rcases hst : s.status <;>
      simp only [vstep] <;>
      repeat' split
    all_goals
      simp_all [VInv, vStatusTraceOk, vLastStatusD, invokeActual,
        InvokeStatus.isRun, InvokeStatus.isCrashed, vStatusTraceOk_append, vLastStatusD_append]
  | reopenWindow =>
    rcases hst : s.status <;>
      simp only [vstep] <;>
      repeat' split
    all_goals
      simp_all [VInv, vStatusTraceOk, vLastStatusD, invokeActual,
        InvokeStatus.isRun, InvokeStatus.isCrashed]

theorem invokeRun_eq_vrun (isInstalled serverMode : Bool) (ipAddr : String)
    (events : List VEvent) :
    invokeRun isInstalled serverMode ipAddr events
      = ((vrun serverMode ipAddr (startInvokeInit isInstalled).1 events).1,
          (startInvokeInit isInstalled).2
            ++ (vrun serverMode ipAddr (startInvokeInit isInstalled).1 events).2) := by
  unfold invokeRun
  generalize (startInvokeInit isInstalled) = p
  rcases p with ⟨s, acc⟩
  induction events generalizing s acc with
  | nil => simp [vrun]
  | cons e rest ih =>
    simp only [List.foldl_cons, vrun]
    rw [ih]
    simp

theorem vrun_spec (serverMode : Bool) (ipAddr : String) (events : List VEvent) (s : VState)
    (h : VInv s) :
    VInv (vrun serverMode ipAddr s events).1 ∧
    vStatusTraceOk invokeActual s.status (vrun serverMode ipAddr s events).2 = true ∧
    vLastStatusD s.status (vrun serverMode ipAddr s events).2
      = (vrun serverMode ipAddr s events).1.status := by
  induction events generalizing s with
  | nil => simpa [vrun, vStatusTraceOk, vLastStatusD] using h
  | cons e rest ih =>
    obtain ⟨t1, t2, t3⟩ := vstep_spec serverMode ipAddr s e h
    obtain ⟨u1, u2, u3⟩ := ih (vstep serverMode ipAddr s e).1 t1
    refine ⟨u1, ?_, ?_⟩ <;>
      simp [vrun, vStatusTraceOk_append, vLastStatusD_append, t2, t3, u2, u3]

theorem startInvokeInit_spec (isInstalled : Bool) :
    VInv (startInvokeInit isInstalled).1 ∧
    vStatusTraceOk invokeActual .uninitialized (startInvokeInit isInstalled).2 = true ∧
    vLastStatusD .uninitialized (startInvokeInit isInstalled).2
      = (startInvokeInit isInstalled).1.status := by
  cases isInstalled <;>
    simp [startInvokeInit, VInv, vStatusTraceOk, vLastStatusD, invokeActual,
      InvokeStatus.isRun, InvokeStatus.isCrashed]

theorem invokeRun_statuses_ok (isInstalled serverMode : Bool) (ipAddr : String)
    (events : List VEvent) :
    vStatusTraceOk invokeActual .uninitialized
      (invokeRun isInstalled serverMode ipAddr events).2 = true := by
  obtain ⟨i1, i2, i3⟩ := startInvokeInit_spec isInstalled
  obtain ⟨r1, r2, r3⟩ := vrun_spec serverMode ipAddr events (startInvokeInit isInstalled).1 i1
  rw [invokeRun_eq_vrun]
  simp [vStatusTraceOk_append, i2, i3, r2]

theorem vrun_chunks_latched (serverMode : Bool) (ipAddr : String) (chunks : List String)
    (s : VState) (h : s.matched = true) :
    vrun serverMode ipAddr s (chunks.map VEvent.chunk) = (s, []) := by
  induction chunks with
  | nil => simp [vrun]
  | cons c rest ih =>
    have hstep : vstep serverMode ipAddr s (VEvent.chunk c) = (s, []) := by
      simp [vstep, h]
    simp [vrun, hstep, ih]

theorem vrun_chunks_spec (serverMode : Bool) (ipAddr : String) (chunks : List String)
    (s : VState) (hm : s.matched = false) (hp : s.ptyAlive = true) :
    match firstReadyUrl chunks with
    | some url =>
      (vrun serverMode ipAddr s (chunks.map VEvent.chunk)).2
          = (if !serverMode then [InvokeEv.windowOpened] else [])
              ++ [.status (.running (mkRunningData url ipAddr))] ∧
      (vrun serverMode ipAddr s (chunks.map VEvent.chunk)).1.lastRunningData
          = some (mkRunningData url ipAddr) ∧
      (vrun serverMode ipAddr s (chunks.map VEvent.chunk)).1.status
          = .running (mkRunningData url ipAddr)
    | none =>
      (vrun serverMode ipAddr s (chunks.map VEvent.chunk)) = (s, []) := by
  induction chunks generalizing s with
  | nil => simp [vrun, firstReadyUrl]
  | cons c rest ih =>
    rcases hw : watcherMatch c with _ | url
    · have hstep : vstep serverMode ipAddr s (VEvent.chunk c) = (s, []) := by
        simp [vstep, hm, hp, hw]
      have := ih s hm hp
      simp only [firstReadyUrl, hw, List.map_cons, vrun, hstep]
      rcases hf : firstReadyUrl rest with _ | url2 <;> simp_all
    · simp only [firstReadyUrl, hw, List.map_cons, vrun]
      rcases hs2 : vstep serverMode ipAddr s (VEvent.chunk c) with ⟨s2, e2⟩
      have hfire : s2 = { s with
            status := .running (mkRunningData url ipAddr)
            matched := true
            lastRunningData := some (mkRunningData url ipAddr)
            windowOpen := s.windowOpen || !serverMode } ∧
          e2 = (if !serverMode then [InvokeEv.windowOpened] else [])
              ++ [.status (.running (mkRunningData url ipAddr))] := by
        have : vstep serverMode ipAddr s (VEvent.chunk c)
            = ({ s with
                  status := .running (mkRunningData url ipAddr)
                  matched := true
                  lastRunningData := some (mkRunningData url ipAddr)
                  windowOpen := s.windowOpen || !serverMode },
                (if !serverMode then [InvokeEv.windowOpened] else [])
                  ++ [.status (.running (mkRunningData url ipAddr))]) := by
          simp [vstep, hm, hp, hw]
        rw [hs2] at this
        exact ⟨(Prod.mk.injEq _ _ _ _ ▸ this).1, (Prod.mk.injEq _ _ _ _ ▸ this).2⟩
      obtain ⟨hA, hB⟩ := hfire
      subst hA hB
      rw [vrun_chunks_latched serverMode ipAddr rest _ (by rfl)]
      simp

/-- C1 (amended): if cancellation is requested after pin resolution
completes and before the interpreter-install step starts (delivery at
await 2 or 3), in a run whose preflight checks — the location check,
the architecture assertion, the pin fetch and the uv-executable check —
succeed, no child process is ever spawned and the workflow ends with
status `canceled`; and in every run, no step process is spawned at or
after the `canceling` status (the cancellation flag is checked before
every spawn).  The uv-preflight proviso is necessary: a failing uv
check after the cancel request ends the run `error` instead (see the
claim's counterexample). -/
theorem install_cancel_between_steps (env : InstallEnv) (p : InstallPins)
    (hloc : env.locationOk = true) (harch : env.archOk = true)
    (hpins : env.pins = some p) (huv : env.uvOk = true)
    (hwin : env.cancelAt = some 2 ∨ env.cancelAt = some 3) :
    ((startInstallTrace env initIState).1.status = .canceled ∧
      lastStatusD .uninitialized (startInstallTrace env initIState).2 = .canceled ∧
      ∀ k, InstallEv.spawn k ∉ (startInstallTrace env initIState).2) ∧
    (∀ env' : InstallEnv, ∀ s0 : IState, s0.runnerActive = false →
      noSpawnAfterCancelFrom false (startInstallTrace env' s0).2 = true) := by
  constructor
  · rcases hwin with hc | hc <;>
      rcases hnp : needPythonInstall env with _ | _ <;>
      simp_all [startInstallTrace, IFlow.seq, startingPhase, uvPhase, pythonPhase,
        awaitPoint, cancelInstallM, runCommandM, initIState, lastStatusD, statusTraceOk]
  · exact fun env' s0 h0 => (startInstallTrace_spec env' s0 h0).2.1

/-- C1 counterexample: cancellation delivered in the claimed window
(after pin resolution, during the uv-preflight await) with the uv check
then failing.  The run records `canceling` (the cancellation was
requested and honored in the window) and spawns no process, yet its
final status is `error`, not `canceled`: the trace is exactly
`[starting, canceling, error]`. -/
theorem cancel_between_steps_error_on_uv_failure :
    hasCancelingStatus (startInstallTrace c1EnvX initIState).2 = true ∧
    (startInstallTrace c1EnvX initIState).2
      = [.status .starting, .status .canceling, .status .error] ∧
    (startInstallTrace c1EnvX initIState).1.status = .error ∧
    lastStatusD .uninitialized (startInstallTrace c1EnvX initIState).2 = .error := by
  decide

/-- Witness for C1 at a concrete environment (cancel delivered during
the `getInstallationDetails` await). -/
theorem install_cancel_between_steps_witness :
    ((startInstallTrace c1EnvW initIState).1.status = .canceled ∧
      lastStatusD .uninitialized (startInstallTrace c1EnvW initIState).2 = .canceled ∧
      ∀ k, InstallEv.spawn k ∉ (startInstallTrace c1EnvW initIState).2) ∧
    (∀ env' : InstallEnv, ∀ s0 : IState, s0.runnerActive = false →
      noSpawnAfterCancelFrom false (startInstallTrace env' s0).2 = true) :=
  install_cancel_between_steps c1EnvW c1PinsW rfl rfl rfl rfl (Or.inl rfl)

/-- C4: with `repair = false` and an existing installation whose
interpreter matches the resolved pin on major and minor version, the
interpreter-install step is skipped: no python-install process is
spawned. -/
theorem install_python_step_skipped_on_version_match (env : InstallEnv) (p : InstallPins)
    (hrep : env.repair = false) (hpins : env.pins = some p)
    (hinst : env.details.isInstalled = true)
    (hmaj : pep440major env.details.pythonVersion = pep440major p.python)
    (hmin : pep440minor env.details.pythonVersion = pep440minor p.python) :
    InstallEv.spawn .python ∉ (startInstallTrace env initIState).2 := by
  intro hk
  have h3 := (startInstallTrace_spec env initIState rfl).2.2 hk
  unfold needPythonInstall pythonVersionMismatch at h3
  rw [hpins] at h3
  simp [hrep, hinst, hmaj, hmin] at h3

/-- Witness for C4: python 3.11.4 installed, pin 3.11.9 (major 3 and
minor 11 both match). -/
theorem install_python_step_skipped_on_version_match_witness :
    InstallEv.spawn .python ∉ (startInstallTrace c4EnvW initIState).2 :=
  install_python_step_skipped_on_version_match c4EnvW c1PinsW rfl rfl rfl (by decide) (by decide)

/-- C5: the GPU-type → package-variant table: macOS always selects the
cpu index; otherwise `amd` → rocm, `nvidia<30xx` → cuda plus the
`invokeai[xformers]` package, `nvidia>=30xx` and any other value →
cuda, `nogpu` → cpu. -/
theorem gpu_variant_table (p : Platform) (g : GpuType) :
    (p = .darwin → getTorchPlatform p g = .cpu) ∧
    (p ≠ .darwin →
      (g = .amd → getTorchPlatform p g = .rocm) ∧
      (g = .nvidiaLt30xx →
        getTorchPlatform p g = .cuda ∧ invokeaiPackageSpecifier g = "invokeai[xformers]") ∧
      ((g = .nvidiaGe30xx ∨ g = .unspecified) → getTorchPlatform p g = .cuda) ∧
      (g = .nogpu → getTorchPlatform p g = .cpu)) := by
  cases p <;> cases g <;>
    simp [getTorchPlatform, invokeaiPackageSpecifier] <;> decide

/-- Witness for C5: Linux with an AMD GPU selects the rocm index, and
macOS with the same GPU selects cpu. -/
theorem gpu_variant_table_witness :
    getTorchPlatform .linux .amd = .rocm ∧ getTorchPlatform .darwin .amd = .cpu :=
  ⟨((gpu_variant_table .linux .amd).2 (by decide)).1 rfl,
    (gpu_variant_table .darwin .amd).1 rfl⟩

/-- C10: `cancelInstall` with a status that is neither `starting` nor
`installing` leaves the manager state unchanged (no status update, flag
untouched, nothing killed) and only logs a warning. -/
theorem cancel_install_noop_when_not_in_progress (s : IState)
    (h : s.status ≠ .starting ∧ s.status ≠ .installing) :
    cancelInstallM s = (s, [.warnNoInstallToCancel]) := by
  obtain ⟨h1, h2⟩ := h
  unfold cancelInstallM
  rcases hs : s.status <;> simp_all

/-- Witness for C10 at status `completed`. -/
theorem cancel_install_noop_when_not_in_progress_witness :
    cancelInstallM { status := .completed, cancelRequested := false, runnerActive := false }
      = ({ status := .completed, cancelRequested := false, runnerActive := false },
          [.warnNoInstallToCancel]) :=
  cancel_install_noop_when_not_in_progress _ (by decide)

/-- C3 counterexample: on a run whose install location is invalid, the
workflow records `error` directly from `starting`, which is not a
transition of the claimed machine `uninitialized → starting →
installing → (canceling → canceled | completed | error)`. -/
theorem declared_transitions_violated :
    statusTraceOk installDeclared .uninitialized (startInstallTrace c3EnvX initIState).2 = false := by
  decide

/-- C3 (amended): within a single run — one `startInstall` invocation
with a concurrent `cancelInstall`, and one `startInvoke` supervision
run — every recorded status is a transition of the code's machines,
which extend the declared ones exactly as follows.  Install side:
`starting → error`, `starting → canceling`, `canceling → installing`,
`canceling → error`, `installing → canceled`.  Application side:
`starting → error`, `starting → exited`, `starting → exiting`;
`running → running`, `running → exited`, `running → error`,
`running → window-crashed`; `exiting → running`, `exiting → exiting`;
`window-crashed → running`, `window-crashed → exited`,
`window-crashed → error`, `window-crashed → exiting`;
`exited → exiting`; `error → exiting`.  Statuses recorded by
re-invoking `startInstall` or `startInvoke` after a terminal status
begin a new run and are outside this single-run relation. -/
theorem status_transitions_follow_code_machine :
    (∀ env : InstallEnv,
      statusTraceOk installActual .uninitialized (startInstallTrace env initIState).2 = true) ∧
    (∀ (isInstalled serverMode : Bool) (ipAddr : String) (events : List VEvent),
      vStatusTraceOk invokeActual .uninitialized
        (invokeRun isInstalled serverMode ipAddr events).2 = true) :=
  ⟨fun env => (startInstallTrace_spec env initIState rfl).1,
    fun isInstalled serverMode ipAddr events =>
      invokeRun_statuses_ok isInstalled serverMode ipAddr events⟩

/-- C6: when the supervised process's output first passes the readiness
filter and URL regex, the supervisor records `running` exactly once,
with the matched URL, a loopback URL obtained by replacing `0.0.0.0`
with `127.0.0.1`, a LAN URL (host address substituted) exactly when the
URL contains `0.0.0.0`, and persists the data as the last known running
endpoint. -/
theorem readiness_match_records_running_once (serverMode : Bool) (ipAddr : String)
    (chunks : List String) (url : String) (hm : firstReadyUrl chunks = some url) :
    countRunning (invokeRun true serverMode ipAddr (chunks.map VEvent.chunk)).2 = 1 ∧
    InvokeEv.status (.running (mkRunningData url ipAddr))
        ∈ (invokeRun true serverMode ipAddr (chunks.map VEvent.chunk)).2 ∧
    (mkRunningData url ipAddr).url = url ∧
    (mkRunningData url ipAddr).loopbackUrl = jsReplace url "0.0.0.0" "127.0.0.1" ∧
    (mkRunningData url ipAddr).lanUrl
        = (if jsIncludes url "0.0.0.0" then some (jsReplace url "0.0.0.0" ipAddr) else none) ∧
    (invokeRun true serverMode ipAddr (chunks.map VEvent.chunk)).1.lastRunningData
        = some (mkRunningData url ipAddr) := by
  have hs := vrun_chunks_spec serverMode ipAddr chunks (startInvokeInit true).1 (by rfl) (by rfl)
  rw [hm] at hs
  obtain ⟨h1, h2, h3⟩ := hs
  rw [invokeRun_eq_vrun]
  refine ⟨?_, ?_, rfl, rfl, rfl, ?_⟩
  · cases serverMode <;> simp_all [countRunning, startInvokeInit]
  · cases serverMode <;> simp_all [startInvokeInit]
  · exact h2

/-- Witness for C6 on the spec's scenario chunk. -/
theorem readiness_match_records_running_once_witness :
    countRunning (invokeRun true false "192.168.1.5"
        (["Uvicorn running on http://0.0.0.0:9090"].map VEvent.chunk)).2 = 1 ∧
    InvokeEv.status (.running (mkRunningData "http://0.0.0.0:9090" "192.168.1.5"))
        ∈ (invokeRun true false "192.168.1.5"
            (["Uvicorn running on http://0.0.0.0:9090"].map VEvent.chunk)).2 ∧
    (mkRunningData "http://0.0.0.0:9090" "192.168.1.5").url = "http://0.0.0.0:9090" ∧
    (mkRunningData "http://0.0.0.0:9090" "192.168.1.5").loopbackUrl
        = jsReplace "http://0.0.0.0:9090" "0.0.0.0" "127.0.0.1" ∧
    (mkRunningData "http://0.0.0.0:9090" "192.168.1.5").lanUrl
        = (if jsIncludes "http://0.0.0.0:9090" "0.0.0.0" then
            some (jsReplace "http://0.0.0.0:9090" "0.0.0.0" "192.168.1.5") else none) ∧
    (invokeRun true false "192.168.1.5"
        (["Uvicorn running on http://0.0.0.0:9090"].map VEvent.chunk)).1.lastRunningData
        = some (mkRunningData "http://0.0.0.0:9090" "192.168.1.5") :=
  readiness_match_records_running_once false "192.168.1.5"
    ["Uvicorn running on http://0.0.0.0:9090"] "http://0.0.0.0:9090" (by decide)

/-- C7: the supervisor's exit classification: exit code 0 ⇒ `exited`;
a signal-bearing termination ⇒ `exited`; a non-zero, non-null code with
no signal ⇒ `error` carrying the code; and the `onExit` handler closes
the display window in every case. -/
theorem exit_classification (c sig : Option Int) :
    (c = some 0 → classifyExit c sig = .exited) ∧
    (sig.isSome = true → classifyExit c sig = .exited) ∧
    (∀ n : Int, c = some n → n ≠ 0 → sig = none →
      classifyExit c sig = .error ("Process exited with code " ++ toString n)) ∧
    (∀ (serverMode : Bool) (ipAddr : String) (s : VState), s.ptyAlive = true →
      InvokeEv.windowClosed ∈ (vstep serverMode ipAddr s (.procExit c sig)).2) := by
  refine ⟨?_, ?_, ?_, ?_⟩
  · intro h; simp [classifyExit, h]
  · intro h
    unfold classifyExit
    split
    · rfl
    · simp [h]
  · intro n hn hnz hsig
    subst hn hsig
    simp [classifyExit, hnz]
  · intro serverMode ipAddr s hp
    simp [vstep, hp]

/-- Witness for C7: exit code 143 with no signal is classified as an
error carrying the code, and the window-close action is emitted. -/
theorem exit_classification_witness :
    classifyExit (some 143) none = .error ("Process exited with code " ++ toString (143 : Int)) ∧
    InvokeEv.windowClosed ∈
      (vstep false "ip"
        { status := .exiting, matched := true, lastRunningData := none,
          ptyAlive := true, currentPty := false, windowOpen := false }
        (.procExit (some 143) none)).2 :=
  ⟨(exit_classification (some 143) none).2.2.1 143 rfl (by decide) rfl,
    (exit_classification (some 143) none).2.2.2 false "ip" _ rfl⟩

/-- C2 counterexample: when the killed process ignores the termination
request past the kill timeout, `runCommand` continues anyway: B's
process (pid 2) is spawned at trace index 3, while A's future (pid 1)
settles only at index 5, and two command processes are alive at once. -/
theorem runner_timeout_spawns_before_settle :
    firstIdx (.spawn 2) (runTwoCommands false 1 2) = some 3 ∧
    firstIdx (.futureSettled 1) (runTwoCommands false 1 2) = some 5 ∧
    maxAlive (runTwoCommands false 1 2) = 2 := by
  decide

/-- C2 (amended): provided the killed process exits within the kill
timeout, starting command B while command A is unresolved first sends
A the termination request, A's future then settles, and only then is
B's process spawned; along that trace at most one command process is
ever alive. -/
theorem runner_single_flight_when_exit_in_time (pidA pidB : Nat) (h : pidA ≠ pidB) :
    (∃ i j k : Nat,
      firstIdx (.sigterm pidA) (runTwoCommands true pidA pidB) = some i ∧
      firstIdx (.futureSettled pidA) (runTwoCommands true pidA pidB) = some j ∧
      firstIdx (.spawn pidB) (runTwoCommands true pidA pidB) = some k ∧
      i < j ∧ j < k) ∧
    maxAlive (runTwoCommands true pidA pidB) = 1 := by
  have htr : runTwoCommands true pidA pidB
      = [.spawn pidA, .sigterm pidA, .procExited pidA, .futureSettled pidA, .spawn pidB] := by
    simp [runTwoCommands, crRunCommand, crKill]
  rw [htr]
  constructor
  · refine ⟨1, 3, 4, ?_, ?_, ?_, by omega, by omega⟩ <;>
      simp [firstIdx, h, Ne.symm h]
  · rfl

/-- Witness for C2's amended statement at pids 1 and 2. -/
theorem runner_single_flight_when_exit_in_time_witness :
    (∃ i j k : Nat,
      firstIdx (.sigterm 1) (runTwoCommands true 1 2) = some i ∧
      firstIdx (.futureSettled 1) (runTwoCommands true 1 2) = some j ∧
      firstIdx (.spawn 2) (runTwoCommands true 1 2) = some k ∧
      i < j ∧ j < k) ∧
    maxAlive (runTwoCommands true 1 2) = 1 :=
  runner_single_flight_when_exit_in_time 1 2 (by decide)

theorem lookup_settleFuture_ne (m m2 : String) (v : FutureState)
    (fs : List (String × FutureState)) (h : m ≠ m2) :
    lookupKV m (settleFuture m2 v fs) = lookupKV m fs := by
  induction fs with
  | nil => rfl
  | cons p rest ih =>
    rcases p with ⟨k, w⟩
    by_cases hk : k = m2
    · by_cases hw : w = FutureState.pending <;>
        simp [settleFuture, lookupKV, hk, hw, Ne.symm h, ih]
    · by_cases hkm : k = m
      · simp [settleFuture, lookupKV, hk, hkm, h]
      · simp [settleFuture, lookupKV, hk, hkm, ih]

theorem lookup_settleFuture_pending (m : String) (v : FutureState)
    (fs : List (String × FutureState)) (h : lookupKV m fs = some .pending) :
    lookupKV m (settleFuture m v fs) = some v := by
  induction fs with
  | nil => simp [lookupKV] at h
  | cons p rest ih =>
    rcases p with ⟨k, w⟩
    by_cases hkm : k = m
    · simp only [lookupKV, if_pos hkm] at h
      injection h with h
      subst h
      simp [settleFuture, lookupKV, hkm]
    · simp only [lookupKV, if_neg hkm] at h
      by_cases hw : w = FutureState.pending <;>
        simp [settleFuture, lookupKV, hkm, hw, ih h]

theorem lookup_settleFuture_settled (m m2 : String) (v v2 : FutureState)
    (fs : List (String × FutureState)) (h : lookupKV m fs = some v)
    (hv : v ≠ .pending) :
    lookupKV m (settleFuture m2 v2 fs) = some v := by
  induction fs with
  | nil => simp [lookupKV] at h
  | cons p rest ih =>
    rcases p with ⟨k, w⟩
    by_cases hkm : k = m
    · simp only [lookupKV, if_pos hkm] at h
      injection h with h
      subst h
      by_cases hk : k = m2
      · simp [settleFuture, lookupKV, hk, hkm, hv, hkm.symm.trans hk]
      · have hmm2 : ¬ m = m2 := fun hc => hk (by rw [hkm, hc])
        simp [settleFuture, lookupKV, hk, hkm, hmm2]
    · simp only [lookupKV, if_neg hkm] at h
      by_cases hk : k = m2
      · by_cases hw : w = FutureState.pending <;>
        · have hm2m : ¬ m2 = m := fun hc => hkm (hk.trans hc)
          simp [settleFuture, lookupKV, hk, hkm, hw, hm2m, ih h]
      · simp [settleFuture, lookupKV, hk, hkm, ih h]

theorem lookup_applySettlements_notin (sets : List (String × FutureState))
    (fs : List (String × FutureState)) (m : String)
    (h : ∀ v, (m, v) ∉ sets) :
    lookupKV m (applySettlements sets fs) = lookupKV m fs := by
  induction sets generalizing fs with
  | nil => rfl
  | cons p rest ih =>
    rcases p with ⟨k, w⟩
    have hk : m ≠ k := fun hc => h w (hc ▸ List.mem_cons_self _ _)
    have hrest : ∀ v, (m, v) ∉ rest := fun v hv => h v (List.mem_cons_of_mem _ hv)
    simp only [applySettlements, List.foldl_cons]
    rw [show List.foldl (fun acc p => settleFuture p.1 p.2 acc) (settleFuture k w fs) rest
        = applySettlements rest (settleFuture k w fs) from rfl]
    rw [ih (settleFuture k w fs) hrest, lookup_settleFuture_ne m k w fs hk]

theorem lookup_applySettlements_settled (sets : List (String × FutureState))
    (fs : List (String × FutureState)) (m : String) (v : FutureState)
    (h : lookupKV m fs = some v) (hv : v ≠ .pending) :
    lookupKV m (applySettlements sets fs) = some v := by
  induction sets generalizing fs with
  | nil => exact h
  | cons p rest ih =>
    rcases p with ⟨k, w⟩
    simp only [applySettlements, List.foldl_cons]
    exact ih (settleFuture k w fs) (lookup_settleFuture_settled m k v w fs h hv)

theorem lookup_applySettlements_hit (l1 l2 : List (String × FutureState))
    (fs : List (String × FutureState)) (m : String) (v : FutureState)
    (hv : v ≠ .pending)
    (h1 : ∀ w, (m, w) ∉ l1)
    (hp : lookupKV m fs = some .pending) :
    lookupKV m (applySettlements (l1 ++ (m, v) :: l2) fs) = some v := by
  induction l1 generalizing fs with
  | nil =>
    simp only [List.nil_append, applySettlements, List.foldl_cons]
    exact lookup_applySettlements_settled l2 _ m v
      (lookup_settleFuture_pending m v fs hp) hv
  | cons p rest ih =>
    rcases p with ⟨k, w⟩
    have hk : m ≠ k := fun hc => h1 w (hc ▸ List.mem_cons_self _ _)
    have hrest : ∀ w, (m, w) ∉ rest := fun w hw => h1 w (List.mem_cons_of_mem _ hw)
    simp only [List.cons_append, applySettlements, List.foldl_cons]
    have hp2 : lookupKV m (settleFuture k w fs) = some .pending := by
      rw [lookup_settleFuture_ne m k w fs hk]; exact hp
    exact ih (settleFuture k w fs) hrest hp2

theorem lookupKV_none_iff {β : Type} (m : String) (l : List (String × β)) :
    lookupKV m l = none ↔ ∀ w, (m, w) ∉ l := by
  induction l with
  | nil => simp [lookupKV]
  | cons p rest ih =>
    rcases p with ⟨k, w⟩
    by_cases hkm : k = m
    · subst hkm
      simp only [lookupKV, if_pos rfl]
      constructor
      · intro h
        exact Option.noConfusion h
      · intro h
        exact absurd (List.mem_cons_self _ _) (h w)
    · simp only [lookupKV, if_neg hkm, ih]
      constructor
      · intro h v hv
        rcases List.mem_cons.mp hv with hv | hv
        · exact hkm (congrArg Prod.fst hv).symm
        · exact h v hv
      · intro h v hv
        exact h v (List.mem_cons_of_mem _ hv)

theorem lookupKV_some_split {β : Type} (m : String) (l : List (String × β)) (b : β)
    (h : lookupKV m l = some b) :
    ∃ l1 l2, l = l1 ++ (m, b) :: l2 ∧ ∀ w, (m, w) ∉ l1 := by
  induction l with
  | nil => simp [lookupKV] at h
  | cons p rest ih =>
    rcases p with ⟨k, w⟩
    by_cases hkm : k = m
    · subst hkm
      simp only [lookupKV, if_pos rfl] at h
      injection h with h
      subst h
      exact ⟨[], rest, rfl, by simp⟩
    · simp only [lookupKV, if_neg hkm] at h
      obtain ⟨l1, l2, heq, hni⟩ := ih h
      refine ⟨(k, w) :: l1, l2, by simp [heq], ?_⟩
      intro v hv
      rcases List.mem_cons.mp hv with hv | hv
      · exact hkm (congrArg Prod.fst hv).symm
      · exact hni v hv

theorem checkCmds_absent (p d m : String) (l : List (String × CommandExecution))
    (h : lookupKV m l = none) :
    lookupKV m (checkCmds p d l).1 = none ∧ ∀ v, (m, v) ∉ (checkCmds p d l).2 := by
  induction l with
  | nil => simp [checkCmds, lookupKV]
  | cons q rest ih =>
    rcases q with ⟨k, c⟩
    by_cases hkm : k = m
    · simp [lookupKV, hkm] at h
    · simp only [lookupKV, if_neg hkm] at h
      obtain ⟨ih1, ih2⟩ := ih h
      by_cases hc : c.id = p
      · rcases hmk : findMarkerCode k d with _ | code
        · simp only [checkCmds, if_pos hc, hmk]
          refine ⟨by simp [lookupKV, hkm, ih1], ?_⟩
          intro v hv
          exact ih2 v hv
        · simp only [checkCmds, if_pos hc, hmk]
          refine ⟨by simp [lookupKV, hkm, ih1], ?_⟩
          intro v hv
          rcases List.mem_cons.mp hv with hv | hv
          · exact hkm (congrArg Prod.fst hv).symm
          · exact ih2 v hv
      · simp only [checkCmds, if_neg hc]
        refine ⟨by simp [lookupKV, hkm, ih1], ?_⟩
        intro v hv
        exact ih2 v hv

theorem rejectCmds_absent (p msg m : String) (l : List (String × CommandExecution))
    (h : lookupKV m l = none) :
    lookupKV m (rejectCmds p msg l).1 = none ∧ ∀ v, (m, v) ∉ (rejectCmds p msg l).2 := by
  induction l with
  | nil => simp [rejectCmds, lookupKV]
  | cons q rest ih =>
    rcases q with ⟨k, c⟩
    by_cases hkm : k = m
    · simp [lookupKV, hkm] at h
    · simp only [lookupKV, if_neg hkm] at h
      obtain ⟨ih1, ih2⟩ := ih h
      by_cases hc : c.id = p
      · simp only [rejectCmds, if_pos hc]
        refine ⟨ih1, ?_⟩
        intro v hv
        rcases List.mem_cons.mp hv with hv | hv
        · exact hkm (congrArg Prod.fst hv).symm
        · exact ih2 v hv
      · simp only [rejectCmds, if_neg hc]
        refine ⟨by simp [lookupKV, hkm, ih1], ?_⟩
        intro v hv
        exact ih2 v hv

theorem lookupKV_none_of_not_mem_keys {β : Type} (m : String) (l : List (String × β))
    (h : m ∉ l.map Prod.fst) : lookupKV m l = none := by
  rw [lookupKV_none_iff]
  intro w hw
  exact h (List.mem_map.mpr ⟨(m, w), hw, rfl⟩)

theorem checkCmds_hit (p d m : String) (code : Nat) (cmd : CommandExecution)
    (l : List (String × CommandExecution))
    (hnd : (l.map Prod.fst).Nodup) (hl : lookupKV m l = some cmd)
    (hid : cmd.id = p) (hmk : findMarkerCode m d = some code) :
    lookupKV m (checkCmds p d l).1 = none ∧
    ∃ l1 l2,
      (checkCmds p d l).2
          = l1 ++ (m, FutureState.resolved code (String.join (cmd.output ++ [d]))) :: l2 ∧
      ∀ w, (m, w) ∉ l1 := by
  induction l with
  | nil => simp [lookupKV] at hl
  | cons q rest ih =>
    rcases q with ⟨k, c⟩
    simp only [List.map_cons, List.nodup_cons] at hnd
    obtain ⟨hk1, hk2⟩ := hnd
    by_cases hkm : k = m
    · subst hkm
      simp only [lookupKV, if_pos rfl] at hl
      injection hl with hl
      subst hl
      have hrest : lookupKV k rest = none :=
        lookupKV_none_of_not_mem_keys k rest hk1
      obtain ⟨ha, hs⟩ := checkCmds_absent p d k rest hrest
      simp only [checkCmds, if_pos hid, hmk]
      exact ⟨ha, [], (checkCmds p d rest).2, rfl, by simp⟩
    · simp only [lookupKV, if_neg hkm] at hl
      obtain ⟨ih1, l1, l2, heq, hni⟩ := ih hk2 hl
      by_cases hc : c.id = p
      · rcases hmk2 : findMarkerCode k d with _ | code2
        · simp only [checkCmds, if_pos hc, hmk2]
          exact ⟨by simp [lookupKV, hkm, ih1], l1, l2, heq, hni⟩
        · simp only [checkCmds, if_pos hc, hmk2]
          refine ⟨by simp [lookupKV, hkm, ih1],
            (k, .resolved code2 (String.join (c.output ++ [d]))) :: l1, l2, by simp [heq], ?_⟩
          intro w hw
          rcases List.mem_cons.mp hw with hw | hw
          · exact hkm (congrArg Prod.fst hw).symm
          · exact hni w hw
      · simp only [checkCmds, if_neg hc]
        exact ⟨by simp [lookupKV, hkm, ih1], l1, l2, heq, hni⟩

theorem rejectCmds_hit (p msg m : String) (cmd : CommandExecution)
    (l : List (String × CommandExecution))
    (hnd : (l.map Prod.fst).Nodup) (hl : lookupKV m l = some cmd) (hid : cmd.id = p) :
    lookupKV m (rejectCmds p msg l).1 = none ∧
    ∃ l1 l2,
      (rejectCmds p msg l).2 = l1 ++ (m, FutureState.rejected msg) :: l2 ∧
      ∀ w, (m, w) ∉ l1 := by
  induction l with
  | nil => simp [lookupKV] at hl
  | cons q rest ih =>
    rcases q with ⟨k, c⟩
    simp only [List.map_cons, List.nodup_cons] at hnd
    obtain ⟨hk1, hk2⟩ := hnd
    by_cases hkm : k = m
    · subst hkm
      simp only [lookupKV, if_pos rfl] at hl
      injection hl with hl
      subst hl
      have hrest : lookupKV k rest = none :=
        lookupKV_none_of_not_mem_keys k rest hk1
      obtain ⟨ha, hs⟩ := rejectCmds_absent p msg k rest hrest
      simp only [rejectCmds, if_pos hid]
      exact ⟨ha, [], (rejectCmds p msg rest).2, rfl, by simp⟩
    · simp only [lookupKV, if_neg hkm] at hl
      obtain ⟨ih1, l1, l2, heq, hni⟩ := ih hk2 hl
      by_cases hc : c.id = p
      · simp only [rejectCmds, if_pos hc]
        refine ⟨ih1, (k, FutureState.rejected msg) :: l1, l2, by simp [heq], ?_⟩
        intro w hw
        rcases List.mem_cons.mp hw with hw | hw
        · exact hkm (congrArg Prod.fst hw).symm
        · exact hni w hw
      · simp only [rejectCmds, if_neg hc]
        exact ⟨by simp [lookupKV, hkm, ih1], l1, l2, heq, hni⟩

theorem pmRun_settled_persists (m : String) (es : List PMEvent) (s : PMState)
    (v : FutureState) (hv : v ≠ .pending) (hf : lookupKV m s.futures = some v)
    (ha : lookupKV m s.activeCommands = none) :
    lookupKV m (pmRun s es).futures = some v ∧
    lookupKV m (pmRun s es).activeCommands = none := by
  induction es generalizing s with
  | nil => exact ⟨hf, ha⟩
  | cons e rest ih =>
    have hstep : lookupKV m (pmStep s e).futures = some v ∧
        lookupKV m (pmStep s e).activeCommands = none := by
      cases e with
      | dataEv p d =>
        simp only [pmStep, onDataPM]
        split
        · obtain ⟨a1, _⟩ := checkCmds_absent p d m s.activeCommands ha
          exact ⟨lookup_applySettlements_settled _ _ m v hf hv, a1⟩
        · exact ⟨hf, ha⟩
      | exitEv p c =>
        obtain ⟨a1, _⟩ := rejectCmds_absent p
          ("Process exited with code " ++ toString c ++ " before command completed")
          m s.activeCommands ha
        exact ⟨lookup_applySettlements_settled _ _ m v hf hv, a1⟩
      | disposeEv p =>
        obtain ⟨a1, _⟩ := rejectCmds_absent p "PTY was disposed" m s.activeCommands ha
        exact ⟨lookup_applySettlements_settled _ _ m v hf hv, a1⟩
      | teardownEv =>
        exact ⟨lookup_applySettlements_settled _ _ m v hf hv, by simp [pmStep, teardownPM, lookupKV]⟩
    have hrun : pmRun s (e :: rest) = pmRun (pmStep s e) rest := by
      simp [pmRun]
    rw [hrun]
    exact ih (pmStep s e) hstep.1 hstep.2

/-- C8: For every command registered through the marker-protocol
`runCommand` (pending future, live registration on session `p`): a data
chunk on `p` containing `<marker>:<digits>` resolves the future with the
parsed exit code and the accumulated output including that chunk, and
removes the registration; if instead the session's process exits, the
session is disposed, or the manager is torn down first, the future is
rejected (with the respective message) and the registration removed; and
once settled, the future's value and the absence of the registration
persist across every further event. -/
theorem marker_protocol_settles (s : PMState) (m p : String) (cmd : CommandExecution)
    (hnd : (s.activeCommands.map Prod.fst).Nodup)
    (hp : p ∈ s.ptys)
    (hact : lookupKV m s.activeCommands = some cmd)
    (hid : cmd.id = p)
    (hpend : lookupKV m s.futures = some FutureState.pending) :
    (∀ data code, findMarkerCode m data = some code →
      lookupKV m (pmStep s (.dataEv p data)).futures
          = some (.resolved code (String.join (cmd.output ++ [data]))) ∧
      lookupKV m (pmStep s (.dataEv p data)).activeCommands = none) ∧
    (∀ c : Int,
      lookupKV m (pmStep s (.exitEv p c)).futures
          = some (.rejected
              ("Process exited with code " ++ toString c ++ " before command completed")) ∧
      lookupKV m (pmStep s (.exitEv p c)).activeCommands = none) ∧
    (lookupKV m (pmStep s (.disposeEv p)).futures
        = some (.rejected "PTY was disposed") ∧
     lookupKV m (pmStep s (.disposeEv p)).activeCommands = none) ∧
    (lookupKV m (pmStep s .teardownEv).futures
        = some (.rejected "PTY manager was torn down") ∧
     lookupKV m (pmStep s .teardownEv).activeCommands = none) ∧
    (∀ (s2 : PMState) (v : FutureState) (es : List PMEvent), v ≠ .pending →
      lookupKV m s2.futures = some v → lookupKV m s2.activeCommands = none →
      lookupKV m (pmRun s2 es).futures = some v ∧
      lookupKV m (pmRun s2 es).activeCommands = none) := by
  refine ⟨?_, ?_, ?_, ?_, ?_⟩
  · intro data code hmk
    obtain ⟨ha, l1, l2, heq, hni⟩ :=
      checkCmds_hit p data m code cmd s.activeCommands hnd hact hid hmk
    simp only [pmStep, onDataPM, if_pos hp]
    rw [heq]
    exact ⟨lookup_applySettlements_hit l1 l2 s.futures m _ (by simp) hni hpend, ha⟩
  · intro c
    obtain ⟨ha, l1, l2, heq, hni⟩ :=
      rejectCmds_hit p
        ("Process exited with code " ++ toString c ++ " before command completed")
        m cmd s.activeCommands hnd hact hid
    simp only [pmStep, onExitPM]
    rw [heq]
    exact ⟨lookup_applySettlements_hit l1 l2 s.futures m _ (by simp) hni hpend, ha⟩
  · obtain ⟨ha, l1, l2, heq, hni⟩ :=
      rejectCmds_hit p "PTY was disposed" m cmd s.activeCommands hnd hact hid
    simp only [pmStep, disposePM]
    rw [heq]
    exact ⟨lookup_applySettlements_hit l1 l2 s.futures m _ (by simp) hni hpend, ha⟩
  · obtain ⟨a1, a2, heq, hni⟩ := lookupKV_some_split m s.activeCommands cmd hact
    simp only [pmStep, teardownPM]
    refine ⟨?_, rfl⟩
    rw [heq]
    have hmap : ((a1 ++ (m, cmd) :: a2).map
          fun q => (q.1, FutureState.rejected "PTY manager was torn down"))
        = (a1.map fun q => (q.1, FutureState.rejected "PTY manager was torn down"))
          ++ (m, FutureState.rejected "PTY manager was torn down")
            :: (a2.map fun q => (q.1, FutureState.rejected "PTY manager was torn down")) := by
      simp
    rw [hmap]
    refine lookup_applySettlements_hit _ _ s.futures m _ (by simp) ?_ hpend
    intro w hw
    rcases List.mem_map.mp hw with ⟨⟨q1, q2⟩, hq, hqe⟩
    have h1 : q1 = m := congrArg Prod.fst hqe
    exact hni q2 (h1 ▸ hq)
  · intro s2 v es hv hf ha
    exact pmRun_settled_persists m es s2 v hv hf ha

/-- Witness for C8 at a concrete registration: on the fresh manager with
one session, registering marker `M1` and then receiving a chunk carrying
`M1:7` resolves the future with code 7 and the chunk as output, and
clears the registration. -/
theorem marker_protocol_settles_witness :
    lookupKV "M1" (pmStep (registerCommand "p1" "M1" ⟨["p1"], [], []⟩)
        (.dataEv "p1" "ok M1:7 done")).futures
      = some (.resolved 7 (String.join ([] ++ ["ok M1:7 done"]))) ∧
    lookupKV "M1" (pmStep (registerCommand "p1" "M1" ⟨["p1"], [], []⟩)
        (.dataEv "p1" "ok M1:7 done")).activeCommands = none :=
  (marker_protocol_settles (registerCommand "p1" "M1" ⟨["p1"], [], []⟩) "M1" "p1"
      ⟨"p1", "M1", []⟩ (by decide) (by decide) (by decide) rfl (by decide)).1
    "ok M1:7 done" 7 (by decide)

theorem lookupKV_removeAll (id : String) (s : List (String × SEntry)) :
    lookupKV id (s.filter (fun q => q.1 ≠ id)) = none := by
  induction s with
  | nil => rfl
  | cons p rest ih =>
    rcases p with ⟨k, v⟩
    by_cases hk : k = id
    · simpa [List.filter_cons, hk] using ih
    · simpa [List.filter_cons, hk, lookupKV] using ih

/-- C9: `write`, `resize` and `dispose` on an id absent from the session
index (never created, already disposed, or exited) leave the index
unchanged and perform no process action — the `do` helper returns
`PtyNotFound` instead of running the callback, and the operations are
total, so nothing throws; moreover, for any state, disposing an id a
second time changes nothing and performs no action, so disposing twice
has the same effect as disposing once. -/
theorem pty_ops_noop_on_unknown_id (s : List (String × SEntry)) (id data : String)
    (cols rows : Nat) (h : lookupKV id s = none) :
    writePty id data s = (s, []) ∧
    resizePty id cols rows s = (s, []) ∧
    disposePty id s = (s, []) ∧
    (∀ s2 : List (String × SEntry),
      disposePty id (disposePty id s2).1 = ((disposePty id s2).1, [])) := by
  refine ⟨by simp [writePty, h], by simp [resizePty, h], by simp [disposePty, h], ?_⟩
  intro s2
  rcases hl : lookupKV id s2 with _ | e
  · simp [disposePty, hl]
  · simp only [disposePty, hl]
    rw [lookupKV_removeAll id s2]

/-- Witness for C9: on an index holding only session `a`, the operations
on unknown id `b` are no-ops and dispose is idempotent. -/
theorem pty_ops_noop_on_unknown_id_witness :
    writePty "b" "x" [("a", ⟨"a", [], ""⟩)] = ([("a", ⟨"a", [], ""⟩)], []) ∧
    resizePty "b" 80 24 [("a", ⟨"a", [], ""⟩)] = ([("a", ⟨"a", [], ""⟩)], []) ∧
    disposePty "b" [("a", ⟨"a", [], ""⟩)] = ([("a", ⟨"a", [], ""⟩)], []) ∧
    (∀ s2 : List (String × SEntry),
      disposePty "b" (disposePty "b" s2).1 = ((disposePty "b" s2).1, [])) :=
  pty_ops_noop_on_unknown_id [("a", ⟨"a", [], ""⟩)] "b" "x" 80 24 (by decide)
